import Mathlib

/-!
Verification development for the level-spawning core of the `bevy_ecs_ldtk` fork
(`src/systems.rs` and `src/tile_makers.rs`).

The Rust code is shallowly embedded: machine integers (i32/u32/u16) become `Int`/`Nat`
with explicit wrapping where a cast occurs, Rust `HashMap` built by `collect` becomes an
association list with last-write-wins lookup, and Rust panics (`unwrap`/`expect`,
division by zero) become `Option.none`.  Functions of `utils.rs` are not among the
provided sources; those are modelled from the specification and marked as such.
-/

namespace BevyEcsLdtk

/-- One LDtk tile instance (`ldtk::TileInstance`): pixel position `px` (top-left, layer
pixel space), source rectangle `src`, tileset tile index `t`, and flip code `f`
(0 = none, 1 = horizontal, 2 = vertical, 3 = both).  All fields are i32-valued. -/
structure TileInstance where
  px : Int × Int
  src : Int × Int
  t : Int
  f : Int
deriving DecidableEq, Repr

/-- Rust `as u32` cast of an i32 value: two's-complement reinterpretation,
i.e. the value modulo 2^32. -/
def toU32 (n : Int) : Nat := (n % (4294967296 : Int)).toNat

/-- Rust `as u16` cast of an i32 value: the value modulo 2^16. -/
def toU16 (n : Int) : Nat := (n % (65536 : Int)).toNat

/-- The scanning loop of `layer_grid_tiles` (`systems.rs` lines 454-462): each tile of
the remaining list is appended to the current partition `layer` unless that partition
already holds a tile with the same pixel position, in which case it is appended to
`overflow`. -/
def splitGo : List TileInstance → List TileInstance → List TileInstance →
    List TileInstance × List TileInstance
  | layer, overflow, [] => (layer, overflow)
  | layer, overflow, tile :: rest =>
    if layer.any (fun t => decide (t.px = tile.px)) then
      splitGo layer (overflow ++ [tile]) rest
    else
      splitGo (layer ++ [tile]) overflow rest

/-- Fuel-indexed form of the recursion of `layer_grid_tiles` (`systems.rs` lines
453-470): the Rust function recurses on the overflow list until it is empty; the fuel
models the call stack, and `layer_grid_tiles_fuel_enough` below shows that
`length + 1` fuel always suffices, so the embedding agrees with the source on every
input. -/
def layerGridTilesFuel : Nat → List TileInstance → List (List TileInstance)
  | 0, _ => []
  | fuel + 1, grid_tiles =>
    let p := splitGo [] [] grid_tiles
    if p.2.isEmpty then [p.1] else p.1 :: layerGridTilesFuel fuel p.2

/-- Embedding of `layer_grid_tiles` (`systems.rs` lines 453-470): partition a tile list
into sub-layers, keeping the first tile seen at each distinct pixel position and
recursing on the overflow. -/
def layer_grid_tiles (grid_tiles : List TileInstance) : List (List TileInstance) :=
  layerGridTilesFuel (grid_tiles.length + 1) grid_tiles

/-- Specification-side description of one partitioning pass, following the words of
spec 4.2: scanning the tile list with `seen` holding the pixel positions already kept,
the first tile seen at each distinct pixel position stays in the current partition and
every later tile that collides on pixel position is deferred to the overflow, both in
original order.  Stated independently of `splitGo` (the embedding of the source's
loop) so that the two can be proved equal. -/
def partition_pass_spec (seen : List (Int × Int)) :
    List TileInstance → List TileInstance × List TileInstance
  | [] => ([], [])
  | t :: rest =>
    if t.px ∈ seen then
      ((partition_pass_spec seen rest).1, t :: (partition_pass_spec seen rest).2)
    else
      (t :: (partition_pass_spec (t.px :: seen) rest).1,
        (partition_pass_spec (t.px :: seen) rest).2)

/-- The visual tile data produced by the tile makers (`bevy_ecs_tilemap::Tile`,
restricted to the fields the code sets). -/
structure Tile where
  texture_index : Nat
  flip_x : Bool
  flip_y : Bool
  visible : Bool
deriving DecidableEq, Repr

/-- The `Default::default()` tile of bevy_ecs_tilemap: texture 0, no flips, visible. -/
def defaultTile : Tile :=
  { texture_index := 0, flip_x := false, flip_y := false, visible := true }

/-- A tile bundle as produced by the tile bundle makers; only the `tile` field is set,
the rest is defaulted. -/
structure TileBundle where
  tile : Tile
deriving DecidableEq, Repr

/-- A tile maker that always returns an invisible tile
(`tile_makers.rs` lines 24-29). -/
def tile_pos_to_invisible_tile (_ : Nat × Nat) : Option Tile :=
  some { defaultTile with visible := false }

/-- The flip-flag decode performed inside `tile_pos_to_tile_maker`
(`tile_makers.rs` lines 55-60): codes 1, 2, 3 map to (x), (y), (x and y); every other
code falls to the default arm (no flips). -/
def decode_flips (f : Int) : Bool × Bool :=
  if f = 1 then (true, false)
  else if f = 2 then (false, true)
  else if f = 3 then (true, true)
  else (false, false)

/-- The tile-position key computed for one tile instance when `tile_pos_to_tile_maker`
builds its lookup (`tile_makers.rs` lines 43-46):
`TilePos((t.px[0] / grid_size) as u32, height as u32 - (t.px[1] / grid_size) as u32 - 1)`.
Rust i32 division truncates toward zero and panics on a zero divisor (`none`);
the u32 casts and the u32 subtraction wrap modulo 2^32. -/
def tile_maker_pos (layer_height_in_tiles layer_grid_size : Int) (t : TileInstance) :
    Option (Nat × Nat) :=
  if layer_grid_size = 0 then none
  else
    some (toU32 (Int.tdiv t.px.1 layer_grid_size),
      (((toU32 layer_height_in_tiles : Int) -
        (toU32 (Int.tdiv t.px.2 layer_grid_size) : Int) - 1) % (4294967296 : Int)).toNat)

/-- The entries fed into the `HashMap` of `tile_pos_to_tile_maker`
(`tile_makers.rs` lines 39-50), in iteration order; `none` when any key computation
panics (zero grid size with at least one tile). -/
def grid_tile_map_entries (layer_height_in_tiles layer_grid_size : Int)
    (grid_tiles : List TileInstance) : Option (List ((Nat × Nat) × TileInstance)) :=
  grid_tiles.mapM (fun t =>
    (tile_maker_pos layer_height_in_tiles layer_grid_size t).map (fun p => (p, t)))

/-- Lookup in a `HashMap` built by `collect` from an entry list: on duplicate keys the
last write wins, so the lookup finds the last entry with the given key. -/
def lookupLast {α β : Type} [DecidableEq α] (l : List (α × β)) (k : α) : Option β :=
  (l.reverse.find? (fun e => decide (e.1 = k))).map (fun e => e.2)

/-- Embedding of `tile_pos_to_tile_maker` (`tile_makers.rs` lines 34-72): build the
position lookup, then serve tiles with decoded flips and the tile index cast to u16. -/
def tile_pos_to_tile_maker (layer_height_in_tiles layer_grid_size : Int)
    (grid_tiles : List TileInstance) : Option ((Nat × Nat) → Option Tile) :=
  (grid_tile_map_entries layer_height_in_tiles layer_grid_size grid_tiles).map
    (fun m tile_pos =>
      (lookupLast m tile_pos).map (fun ti =>
        { defaultTile with
          texture_index := toU16 ti.t
          flip_x := (decode_flips ti.f).1
          flip_y := (decode_flips ti.f).2 }))

/-- Modelled from the spec: `int_grid_index_to_tile_pos` lives in `utils.rs`, which is
not among the provided sources.  Spec 4.1 `csvIndexToTilePosition`: column = index mod
width, row = height - (index div width) - 1, row-major decode; errors (returns no
result) if index ≥ width*height. -/
def int_grid_index_to_tile_pos (index width height : Nat) : Option (Nat × Nat) :=
  if index < width * height then some (index % width, height - index / width - 1)
  else none

/-- The entries fed into the `nonzero_map` of
`tile_pos_to_tile_bundle_if_int_grid_nonzero_maker` (`tile_makers.rs` lines 84-95), in
iteration order starting at CSV index `i`; `none` when any decode panics
(an index at or beyond width*height). -/
def nonzero_entries (width height : Nat) : Nat → List Int →
    Option (List ((Nat × Nat) × Bool))
  | _, [] => some []
  | i, v :: rest =>
    match int_grid_index_to_tile_pos i width height, nonzero_entries width height (i + 1) rest with
    | some p, some m => some ((p, decide (v ≠ 0)) :: m)
    | _, _ => none

/-- Embedding of `tile_pos_to_tile_bundle_if_int_grid_nonzero_maker`
(`tile_makers.rs` lines 78-105): build the non-zero lookup over the whole CSV (panicking
on out-of-bounds indices), then serve the provided tile maker's bundled result exactly
where the lookup holds `true`. -/
def tile_pos_to_tile_bundle_if_int_grid_nonzero_maker
    (tile_maker : Nat × Nat → Option Tile) (int_grid_csv : List Int)
    (layer_width_in_tiles layer_height_in_tiles : Nat) :
    Option ((Nat × Nat) → Option TileBundle) :=
  (nonzero_entries layer_width_in_tiles layer_height_in_tiles 0 int_grid_csv).map
    (fun m tile_pos =>
      match lookupLast m tile_pos with
      | some true => (tile_maker tile_pos).map (fun tile => { tile := tile })
      | _ => none)

/-- The kind of a layer instance (`ldtk::Type`). -/
inductive LayerType where
  | Entities
  | IntGrid
  | Tiles
  | AutoLayer
deriving DecidableEq, Repr

/-- One entity instance of an Entities layer, restricted to the fields the spawning
core reads for behavior resolution. -/
structure EntityInstance where
  identifier : String
deriving DecidableEq, Repr

/-- One layer instance of a level, restricted to the fields `spawn_level` reads.
All integer fields are i32 in the source. -/
structure LayerInstance where
  layer_instance_type : LayerType
  identifier : String
  c_wid : Int
  c_hei : Int
  grid_size : Int
  tileset_def_uid : Option Int
  px_total_offset_x : Int
  px_total_offset_y : Int
  grid_tiles : List TileInstance
  auto_layer_tiles : List TileInstance
  int_grid_csv : List Int
  entity_instances : List EntityInstance
deriving DecidableEq, Repr

/-- A tileset definition (`ldtk::TilesetDefinition`), restricted to the fields the
spawning core reads. -/
structure TilesetDefinition where
  uid : Int
  tile_grid_size : Int
  px_wid : Int
  px_hei : Int
  spacing : Int
deriving DecidableEq, Repr

/-- A level: its layer instances (optional in the LDtk format) and pixel height. -/
structure Level where
  layer_instances : Option (List LayerInstance)
  px_hei : Int
deriving DecidableEq, Repr

/-- Modelled from the spec: the behavior registries (`LdtkEntityMap`, `LdtkIntCellMap`
of the `app` module) and `utils.rs`'s `ldtk_map_get_or_default` are not among the
provided sources.  Spec 4.5: a registry maps (layer identifier, entity-or-cell
identifier) to a registered behavior and carries one process-wide default behavior. -/
structure LdtkRegistry (K B : Type) where
  entries : List ((String × K) × B)
  dflt : B

/-- Modelled from the spec: `resolve(layer_id, key, registry)` returns the exact match
if present, else the default; it never fails (spec 4.5). -/
def ldtk_map_get_or_default {K B : Type} [DecidableEq K] (layer_identifier : String)
    (key : K) (reg : LdtkRegistry K B) : B :=
  match reg.entries.find? (fun e => decide (e.1 = (layer_identifier, key))) with
  | some e => e.2
  | none => reg.dflt

/-- Modelled from the spec: `tile_pos_to_translation_centered` lives in `utils.rs`,
which is not among the provided sources.  Spec 4.1: returns the pixel-space center of
the cell, consistent with the inverted (bottom-up) row convention. -/
def tile_pos_to_translation_centered (tile_pos : Nat × Nat) (cell_size : Int) :
    Int × Int :=
  ((tile_pos.1 : Int) * cell_size + cell_size / 2,
   (tile_pos.2 : Int) * cell_size + cell_size / 2)

/-- One semantic int-grid marker emitted for a non-zero CSV cell
(`systems.rs` lines 362-408): the CSV array index, the raw cell value, the decoded tile
position, the cell-centered translation, and the resolved behavior. -/
structure IntCellMarker (C : Type) where
  csv_index : Nat
  value : Int
  tile_pos : Nat × Nat
  translation : Int × Int
  behavior : C
deriving DecidableEq, Repr

/-- One element of the placement plan emitted by `spawn_level`: either a tile sub-layer
(with its depth index, its partition index within its source layer, its tile partition
and the int-grid markers attached to it) or an entity placement (with its z depth and
resolved behavior). -/
inductive SpawnEmission (E C : Type) where
  | subLayer (depth : Nat) (partition_index : Nat) (tiles : List TileInstance)
      (markers : List (IntCellMarker C))
  | entity (z : Nat) (behavior : E)
deriving DecidableEq, Repr

/-- The int-grid marker loop of `spawn_level` (`systems.rs` lines 363-407) starting at
CSV index `i`: zero cells are skipped; each non-zero cell is decoded to a tile position
(the `expect` panic on an out-of-bounds index is `none`), given a cell-centered
translation and a behavior resolved from (layer identifier, cell value). -/
def int_grid_markers_go {C : Type} (li : LayerInstance) (intReg : LdtkRegistry Int C) :
    Nat → List Int → Option (List (IntCellMarker C))
  | _, [] => some []
  | i, v :: rest =>
    if v = 0 then int_grid_markers_go li intReg (i + 1) rest
    else
      match int_grid_index_to_tile_pos i (toU32 li.c_wid) (toU32 li.c_hei),
            int_grid_markers_go li intReg (i + 1) rest with
      | some p, some ms =>
        some ({ csv_index := i, value := v, tile_pos := p,
                translation := tile_pos_to_translation_centered p li.grid_size,
                behavior := ldtk_map_get_or_default li.identifier v intReg } :: ms)
      | _, _ => none

/-- The full int-grid marker list of a layer, in CSV array-index order. -/
def int_grid_markers {C : Type} (li : LayerInstance) (intReg : LdtkRegistry Int C) :
    Option (List (IntCellMarker C)) :=
  int_grid_markers_go li intReg 0 li.int_grid_csv

/-- Processing of one tile partition of a non-Entities layer (`systems.rs` lines
323-432), at depth counter value `depth` and partition index `i`.  An IntGrid layer
with a bound tileset builds the visual tile lookup (which panics when the grid size is
zero and a tile exists); an IntGrid layer without a tileset builds the non-zero lookup
over the whole CSV (which panics on an out-of-bounds index); partition 0 of an IntGrid
layer additionally emits the int-grid markers.  Other layer kinds build only the visual
tile lookup. -/
def partition_emission {E C : Type} (li : LayerInstance)
    (tileset_definition : Option TilesetDefinition) (intReg : LdtkRegistry Int C)
    (depth : Nat) (i : Nat) (part : List TileInstance) :
    Option (SpawnEmission E C) :=
  if li.layer_instance_type = LayerType.IntGrid then
    match tileset_definition with
    | some _ =>
      match grid_tile_map_entries li.c_hei li.grid_size part with
      | none => none
      | some _ =>
        if i = 0 then
          (int_grid_markers li intReg).map
            (fun ms => SpawnEmission.subLayer depth i part ms)
        else some (SpawnEmission.subLayer depth i part [])
    | none =>
      match nonzero_entries (toU32 li.c_wid) (toU32 li.c_hei) 0 li.int_grid_csv with
      | none => none
      | some _ =>
        if i = 0 then
          (int_grid_markers li intReg).map
            (fun ms => SpawnEmission.subLayer depth i part ms)
        else some (SpawnEmission.subLayer depth i part [])
  else
    (grid_tile_map_entries li.c_hei li.grid_size part).map
      (fun _ => SpawnEmission.subLayer depth i part [])

/-- The per-partition loop of `spawn_level` (`systems.rs` lines 323-446), enumerating
the partitions from index `i` with the depth counter at `layerId + i`; the depth
counter advances by one for each emitted sub-layer. -/
def emissions_for_partitions {E C : Type} (li : LayerInstance)
    (tileset_definition : Option TilesetDefinition) (intReg : LdtkRegistry Int C)
    (layerId : Nat) : Nat → List (List TileInstance) →
    Option (List (SpawnEmission E C))
  | _, [] => some []
  | i, part :: rest =>
    match partition_emission li tileset_definition intReg (layerId + i) i part,
          emissions_for_partitions li tileset_definition intReg layerId (i + 1) rest with
    | some e, some es => some (e :: es)
    | _, _ => none

/-- The tileset-binding resolution of `spawn_level` (`systems.rs` lines 274-276):
`layer_instance.tileset_def_uid.map(|u| tileset_definition_map.get(&u).unwrap())`.
A missing uid yields no binding; a uid absent from the definition map panics
(the outer `none`). -/
def resolve_tileset_binding (tilesetDefMap : Int → Option TilesetDefinition) :
    Option Int → Option (Option TilesetDefinition)
  | none => some none
  | some u =>
    match tilesetDefMap u with
    | none => none
    | some td => some (some td)

/-- Processing of one layer instance at depth counter value `layerId`
(`systems.rs` lines 216-446), returning the emitted placements and the new counter.
An Entities layer emits one entity placement per entity instance at z = `layerId`
without consuming the counter; any other layer resolves its tileset binding (the
`unwrap` on a dangling uid is `none`), merges manual and auto tiles, partitions them
and emits one sub-layer per partition, consuming one counter value each. -/
def process_layer {E C : Type} (tilesetDefMap : Int → Option TilesetDefinition)
    (entReg : LdtkRegistry String E) (intReg : LdtkRegistry Int C)
    (li : LayerInstance) (layerId : Nat) :
    Option (List (SpawnEmission E C) × Nat) :=
  match li.layer_instance_type with
  | LayerType.Entities =>
    some (li.entity_instances.map (fun e =>
      SpawnEmission.entity layerId (ldtk_map_get_or_default li.identifier e.identifier entReg)),
      layerId)
  | _ =>
    let parts := layer_grid_tiles (li.grid_tiles ++ li.auto_layer_tiles)
    match resolve_tileset_binding tilesetDefMap li.tileset_def_uid with
    | none => none
    | some tileset_definition =>
      (emissions_for_partitions li tileset_definition intReg layerId 0 parts).map
        (fun es => (es, layerId + parts.length))

/-- The layer loop of `spawn_level` (`systems.rs` lines 214-449) over an
already-reversed layer list, threading the depth counter; a panic in any layer aborts
the whole pass. -/
def spawn_layers {E C : Type} (tilesetDefMap : Int → Option TilesetDefinition)
    (entReg : LdtkRegistry String E) (intReg : LdtkRegistry Int C) :
    List LayerInstance → Nat → Option (List (SpawnEmission E C))
  | [], _ => some []
  | li :: rest, layerId =>
    match process_layer tilesetDefMap entReg intReg li layerId with
    | none => none
    | some (es, layerId2) =>
      (spawn_layers tilesetDefMap entReg intReg rest layerId2).map
        (fun rest_es => es ++ rest_es)

/-- Embedding of `spawn_level` (`systems.rs` lines 199-451): iterate the level's layer
instances in reverse file order with the depth counter starting at 0. -/
def spawn_level {E C : Type} (tilesetDefMap : Int → Option TilesetDefinition)
    (entReg : LdtkRegistry String E) (intReg : LdtkRegistry Int C) (level : Level) :
    Option (List (SpawnEmission E C)) :=
  match level.layer_instances with
  | none => some []
  | some layer_instances =>
    spawn_layers tilesetDefMap entReg intReg layer_instances.reverse 0

/-- Depth-counter discipline of a placement plan starting from counter value `d`: each
sub-layer placement carries the current counter value and advances it by one; each
entity placement carries the current counter value as its z and leaves it unchanged. -/
def depths_ok {E C : Type} : Nat → List (SpawnEmission E C) → Prop
  | _, [] => True
  | d, SpawnEmission.subLayer depth _ _ _ :: rest => depth = d ∧ depths_ok (d + 1) rest
  | d, SpawnEmission.entity z _ :: rest => z = d ∧ depths_ok d rest

/-- The number of sub-layer placements in a plan fragment. -/
def num_sub_layers {E C : Type} : List (SpawnEmission E C) → Nat
  | [] => 0
  | SpawnEmission.subLayer _ _ _ _ :: rest => num_sub_layers rest + 1
  | SpawnEmission.entity _ _ :: rest => num_sub_layers rest

/-! Lemmas about the scanning loop `splitGo`. -/

theorem splitGo_length (ts : List TileInstance) : ∀ l o : List TileInstance,
    (splitGo l o ts).1.length + (splitGo l o ts).2.length =
      l.length + o.length + ts.length := by
  induction ts with
  | nil => intro l o; simp [splitGo]
  | cons t rest ih =>
    intro l o
    simp only [splitGo]
    by_cases hc : (l.any fun x => decide (x.px = t.px)) = true
    · rw [if_pos hc, ih]
      simp
      omega
    · rw [if_neg hc, ih]
      simp
      omega

theorem splitGo_perm (ts : List TileInstance) : ∀ l o : List TileInstance,
    List.Perm ((splitGo l o ts).1 ++ (splitGo l o ts).2) (l ++ o ++ ts) := by
  induction ts with
  | nil => intro l o; simp [splitGo]
  | cons t rest ih =>
    intro l o
    simp only [splitGo]
    by_cases hc : (l.any fun x => decide (x.px = t.px)) = true
    · rw [if_pos hc]
      refine (ih l (o ++ [t])).trans ?_
      simp [List.append_assoc]
    · rw [if_neg hc]
      refine (ih (l ++ [t]) o).trans ?_
      have h1 : List.Perm (t :: (o ++ rest)) (o ++ t :: rest) := List.perm_middle.symm
      have h2 := h1.append_left l
      simpa [List.append_assoc] using h2

theorem splitGo_fst_sublist (ts : List TileInstance) : ∀ l o : List TileInstance,
    (splitGo l o ts).1.Sublist (l ++ ts) := by
  induction ts with
  | nil => intro l o; simp [splitGo]
  | cons t rest ih =>
    intro l o
    simp only [splitGo]
    by_cases hc : (l.any fun x => decide (x.px = t.px)) = true
    · rw [if_pos hc]
      refine (ih l (o ++ [t])).trans ?_
      exact List.Sublist.append_left (List.sublist_cons_self t rest) l
    · rw [if_neg hc]
      have h := ih (l ++ [t]) o
      simpa [List.append_assoc] using h

theorem splitGo_snd_sublist (ts : List TileInstance) : ∀ l o : List TileInstance,
    (splitGo l o ts).2.Sublist (o ++ ts) := by
  induction ts with
  | nil => intro l o; simp [splitGo]
  | cons t rest ih =>
    intro l o
    simp only [splitGo]
    by_cases hc : (l.any fun x => decide (x.px = t.px)) = true
    · rw [if_pos hc]
      have h := ih l (o ++ [t])
      simpa [List.append_assoc] using h
    · rw [if_neg hc]
      refine (ih (l ++ [t]) o).trans ?_
      exact List.Sublist.append_left (List.sublist_cons_self t rest) o

theorem splitGo_pairwise (ts : List TileInstance) : ∀ l o : List TileInstance,
    l.Pairwise (fun a b => a.px ≠ b.px) →
    (splitGo l o ts).1.Pairwise (fun a b => a.px ≠ b.px) := by
  induction ts with
  | nil => intro l o h; simpa [splitGo] using h
  | cons t rest ih =>
    intro l o h
    simp only [splitGo]
    by_cases hc : (l.any fun x => decide (x.px = t.px)) = true
    · rw [if_pos hc]
      exact ih l (o ++ [t]) h
    · rw [if_neg hc]
      refine ih (l ++ [t]) o ?_
      rw [List.pairwise_append]
      refine ⟨h, List.pairwise_singleton _ _, ?_⟩
      intro a ha b hb
      simp only [List.mem_singleton] at hb
      subst hb
      simp only [List.any_eq_true, decide_eq_true_eq, not_exists] at hc
      push_neg at hc
      exact hc a ha

theorem splitGo_fst_ne_nil (ts : List TileInstance) : ∀ l o : List TileInstance,
    l ≠ [] → (splitGo l o ts).1 ≠ [] := by
  induction ts with
  | nil => intro l o h; simpa [splitGo] using h
  | cons t rest ih =>
    intro l o h
    simp only [splitGo]
    by_cases hc : (l.any fun x => decide (x.px = t.px)) = true
    · rw [if_pos hc]; exact ih l (o ++ [t]) h
    · rw [if_neg hc]
      exact ih (l ++ [t]) o (by simp)

theorem splitGo_nil_fst_ne_nil (ts : List TileInstance) (o : List TileInstance)
    (h : ts ≠ []) : (splitGo [] o ts).1 ≠ [] := by
  cases ts with
  | nil => exact absurd rfl h
  | cons t rest =>
    simp only [splitGo, List.any_nil, Bool.false_eq_true, if_false, List.nil_append]
    exact splitGo_fst_ne_nil rest [t] o (by simp)

theorem splitGo_cover (ts : List TileInstance) : ∀ l o t,
    t ∈ l ∨ t ∈ ts → ∃ u ∈ (splitGo l o ts).1, u.px = t.px := by
  induction ts with
  | nil =>
    intro l o t ht
    rcases ht with h | h
    · exact ⟨t, by simpa [splitGo] using h, rfl⟩
    · simp at h
  | cons tile rest ih =>
    intro l o t ht
    simp only [splitGo]
    by_cases hc : (l.any fun x => decide (x.px = tile.px)) = true
    · rw [if_pos hc]
      rcases ht with h | h
      · exact ih l (o ++ [tile]) t (Or.inl h)
      · rcases List.mem_cons.mp h with h | h
        · simp only [List.any_eq_true, decide_eq_true_eq] at hc
          obtain ⟨x, hx, hpx⟩ := hc
          obtain ⟨u, hu, hupx⟩ := ih l (o ++ [tile]) x (Or.inl hx)
          exact ⟨u, hu, by rw [hupx, hpx, h]⟩
        · exact ih l (o ++ [tile]) t (Or.inr h)
    · rw [if_neg hc]
      rcases ht with h | h
      · exact ih (l ++ [tile]) o t (Or.inl (by simp [h]))
      · rcases List.mem_cons.mp h with h | h
        · obtain ⟨u, hu, hupx⟩ := ih (l ++ [tile]) o tile (Or.inl (by simp))
          exact ⟨u, hu, by rw [hupx, h]⟩
        · exact ih (l ++ [tile]) o t (Or.inr h)

theorem splitGo_snd_length_lt (ts : List TileInstance)
    (h : (splitGo [] [] ts).2 ≠ []) : (splitGo [] [] ts).2.length < ts.length := by
  have hts : ts ≠ [] := by
    intro e
    subst e
    simp [splitGo] at h
  have h1 : (splitGo [] [] ts).1 ≠ [] := splitGo_nil_fst_ne_nil ts [] hts
  have h2 := splitGo_length ts [] []
  have h3 : 0 < (splitGo [] [] ts).1.length := List.length_pos.mpr h1
  simp only [List.length_nil] at h2
  omega

/-! Lemmas about the fuel-indexed recursion and `layer_grid_tiles`. -/

theorem layerGridTilesFuel_succ (f : Nat) (ts : List TileInstance) :
    layerGridTilesFuel (f + 1) ts =
      if (splitGo [] [] ts).2.isEmpty then [(splitGo [] [] ts).1]
      else (splitGo [] [] ts).1 :: layerGridTilesFuel f (splitGo [] [] ts).2 := rfl

theorem layerGridTilesFuel_irrel : ∀ n (ts : List TileInstance) (f1 f2 : Nat),
    ts.length ≤ n → ts.length < f1 → ts.length < f2 →
    layerGridTilesFuel f1 ts = layerGridTilesFuel f2 ts := by
  intro n
  induction n with
  | zero =>
    intro ts f1 f2 hn h1 h2
    have hts : ts = [] := List.length_eq_zero.mp (Nat.le_zero.mp hn)
    subst hts
    cases f1 with
    | zero => omega
    | succ f1 =>
      cases f2 with
      | zero => omega
      | succ f2 =>
        rw [layerGridTilesFuel_succ, layerGridTilesFuel_succ]
        simp [splitGo]
  | succ n ih =>
    intro ts f1 f2 hn h1 h2
    cases f1 with
    | zero => omega
    | succ f1 =>
      cases f2 with
      | zero => omega
      | succ f2 =>
        rw [layerGridTilesFuel_succ, layerGridTilesFuel_succ]
        by_cases he : (splitGo [] [] ts).2.isEmpty
        · rw [if_pos he, if_pos he]
        · rw [if_neg he, if_neg he]
          have hne : (splitGo [] [] ts).2 ≠ [] := by
            intro e
            rw [e] at he
            simp at he
          have hlt := splitGo_snd_length_lt ts hne
          have := ih (splitGo [] [] ts).2 f1 f2 (by omega) (by omega) (by omega)
          rw [this]

theorem layer_grid_tiles_fuel_enough (ts : List TileInstance) (f : Nat)
    (h : ts.length < f) : layerGridTilesFuel f ts = layer_grid_tiles ts :=
  layerGridTilesFuel_irrel ts.length ts f (ts.length + 1) le_rfl h (Nat.lt_succ_self _)

theorem layer_grid_tiles_eq (ts : List TileInstance) :
    layer_grid_tiles ts =
      if (splitGo [] [] ts).2.isEmpty then [(splitGo [] [] ts).1]
      else (splitGo [] [] ts).1 :: layer_grid_tiles (splitGo [] [] ts).2 := by
  unfold layer_grid_tiles
  rw [layerGridTilesFuel_succ]
  by_cases he : (splitGo [] [] ts).2.isEmpty
  · rw [if_pos he, if_pos he]
  · rw [if_neg he, if_neg he]
    have hne : (splitGo [] [] ts).2 ≠ [] := by
      intro e
      rw [e] at he
      simp at he
    have hlt := splitGo_snd_length_lt ts hne
    exact congrArg _ (layerGridTilesFuel_irrel (splitGo [] [] ts).2.length _ _ _ le_rfl
      (by omega) (Nat.lt_succ_self _))

theorem layer_grid_tiles_head (ts : List TileInstance) :
    ∃ rest, layer_grid_tiles ts = (splitGo [] [] ts).1 :: rest := by
  rw [layer_grid_tiles_eq]
  by_cases he : (splitGo [] [] ts).2.isEmpty
  · exact ⟨[], by rw [if_pos he]⟩
  · exact ⟨_, by rw [if_neg he]⟩

theorem layer_grid_tiles_pairwise : ∀ n (ts : List TileInstance), ts.length ≤ n →
    ∀ part ∈ layer_grid_tiles ts, part.Pairwise (fun a b => a.px ≠ b.px) := by
  intro n
  induction n with
  | zero =>
    intro ts hn part hp
    have hts : ts = [] := List.length_eq_zero.mp (Nat.le_zero.mp hn)
    subst hts
    rw [layer_grid_tiles_eq] at hp
    simp [splitGo] at hp
    subst hp
    exact List.Pairwise.nil
  | succ n ih =>
    intro ts hn part hp
    rw [layer_grid_tiles_eq] at hp
    by_cases he : (splitGo [] [] ts).2.isEmpty
    · rw [if_pos he] at hp
      simp only [List.mem_singleton] at hp
      subst hp
      exact splitGo_pairwise ts [] [] List.Pairwise.nil
    · rw [if_neg he] at hp
      rcases List.mem_cons.mp hp with h | h
      · subst h
        exact splitGo_pairwise ts [] [] List.Pairwise.nil
      · have hne : (splitGo [] [] ts).2 ≠ [] := by
          intro e
          rw [e] at he
          simp at he
        have hlt := splitGo_snd_length_lt ts hne
        exact ih (splitGo [] [] ts).2 (by omega) part h

theorem layer_grid_tiles_flatten_perm : ∀ n (ts : List TileInstance), ts.length ≤ n →
    List.Perm (layer_grid_tiles ts).flatten ts := by
  intro n
  induction n with
  | zero =>
    intro ts hn
    have hts : ts = [] := List.length_eq_zero.mp (Nat.le_zero.mp hn)
    subst hts
    rw [layer_grid_tiles_eq]
    simp [splitGo]
  | succ n ih =>
    intro ts hn
    rw [layer_grid_tiles_eq]
    by_cases he : (splitGo [] [] ts).2.isEmpty
    · rw [if_pos he]
      have hperm := splitGo_perm ts [] []
      have hnil : (splitGo [] [] ts).2 = [] := List.isEmpty_iff.mp he
      rw [hnil] at hperm
      simpa using hperm
    · rw [if_neg he]
      have hne : (splitGo [] [] ts).2 ≠ [] := by
        intro e
        rw [e] at he
        simp at he
      have hlt := splitGo_snd_length_lt ts hne
      have hrec := ih (splitGo [] [] ts).2 (by omega)
      have hperm := splitGo_perm ts [] []
      simp only [List.nil_append] at hperm
      rw [List.flatten_cons]
      exact (hrec.append_left (splitGo [] [] ts).1).trans hperm

theorem layer_grid_tiles_sublist : ∀ n (ts : List TileInstance), ts.length ≤ n →
    ∀ part ∈ layer_grid_tiles ts, part.Sublist ts := by
  intro n
  induction n with
  | zero =>
    intro ts hn part hp
    have hts : ts = [] := List.length_eq_zero.mp (Nat.le_zero.mp hn)
    subst hts
    rw [layer_grid_tiles_eq] at hp
    simp [splitGo] at hp
    subst hp
    exact List.Sublist.refl _
  | succ n ih =>
    intro ts hn part hp
    rw [layer_grid_tiles_eq] at hp
    have hfst : (splitGo [] [] ts).1.Sublist ts := by
      have h := splitGo_fst_sublist ts [] []
      simpa using h
    by_cases he : (splitGo [] [] ts).2.isEmpty
    · rw [if_pos he] at hp
      simp only [List.mem_singleton] at hp
      subst hp
      exact hfst
    · rw [if_neg he] at hp
      rcases List.mem_cons.mp hp with h | h
      · subst h
        exact hfst
      · have hne : (splitGo [] [] ts).2 ≠ [] := by
          intro e
          rw [e] at he
          simp at he
        have hlt := splitGo_snd_length_lt ts hne
        have hsnd : (splitGo [] [] ts).2.Sublist ts := by
          have h2 := splitGo_snd_sublist ts [] []
          simpa using h2
        exact (ih (splitGo [] [] ts).2 (by omega) part h).trans hsnd

theorem layer_grid_tiles_length_le : ∀ n (ts : List TileInstance), ts.length ≤ n →
    (layer_grid_tiles ts).length ≤ ts.length + 1 ∧
    (ts ≠ [] → (layer_grid_tiles ts).length ≤ ts.length) := by
  intro n
  induction n with
  | zero =>
    intro ts hn
    have hts : ts = [] := List.length_eq_zero.mp (Nat.le_zero.mp hn)
    subst hts
    rw [layer_grid_tiles_eq]
    simp [splitGo]
  | succ n ih =>
    intro ts hn
    rw [layer_grid_tiles_eq]
    by_cases he : (splitGo [] [] ts).2.isEmpty
    · rw [if_pos he]
      constructor
      · simp
      · intro hne
        have : 0 < ts.length := List.length_pos.mpr hne
        simpa using this
    · rw [if_neg he]
      have hne : (splitGo [] [] ts).2 ≠ [] := by
        intro e
        rw [e] at he
        simp at he
      have hlt := splitGo_snd_length_lt ts hne
      have hrec := (ih (splitGo [] [] ts).2 (by omega)).2 hne
      constructor
      · simp only [List.length_cons]
        omega
      · intro _
        simp only [List.length_cons]
        omega

theorem splitGo_eq_partition_pass_spec_aux :
    ∀ (ts layer overflow : List TileInstance) (seen : List (Int × Int)),
    (∀ p, p ∈ seen ↔ ∃ t ∈ layer, t.px = p) →
    splitGo layer overflow ts =
      (layer ++ (partition_pass_spec seen ts).1,
       overflow ++ (partition_pass_spec seen ts).2) := by
  intro ts
  induction ts with
  | nil =>
    intro layer overflow seen hinv
    simp [splitGo, partition_pass_spec]
  | cons t rest ih =>
    intro layer overflow seen hinv
    simp only [splitGo, partition_pass_spec]
    by_cases hseen : t.px ∈ seen
    · have hany : (layer.any fun x => decide (x.px = t.px)) = true := by
        rw [List.any_eq_true]
        obtain ⟨u, hu, hup⟩ := (hinv t.px).mp hseen
        exact ⟨u, hu, by simp [hup]⟩
      rw [if_pos hany, if_pos hseen]
      rw [ih layer (overflow ++ [t]) seen hinv]
      simp [List.append_assoc]
    · have hany : ¬ (layer.any fun x => decide (x.px = t.px)) = true := by
        rw [List.any_eq_true]
        rintro ⟨u, hu, hup⟩
        simp only [decide_eq_true_eq] at hup
        exact hseen ((hinv t.px).mpr ⟨u, hu, hup⟩)
      rw [if_neg hany, if_neg hseen]
      have hinv2 : ∀ p, p ∈ t.px :: seen ↔ ∃ u ∈ layer ++ [t], u.px = p := by
        intro p
        simp only [List.mem_cons]
        constructor
        · rintro (rfl | hp)
          · exact ⟨t, by simp, rfl⟩
          · obtain ⟨u, hu, hup⟩ := (hinv p).mp hp
            exact ⟨u, by simp [hu], hup⟩
        · rintro ⟨u, hu, hup⟩
          rcases List.mem_append.mp hu with hu | hu
          · exact Or.inr ((hinv p).mpr ⟨u, hu, hup⟩)
          · simp only [List.mem_singleton] at hu
            subst hu
            exact Or.inl hup.symm
      rw [ih (layer ++ [t]) overflow (t.px :: seen) hinv2]
      simp [List.append_assoc]

theorem splitGo_eq_partition_pass_spec (ts : List TileInstance) :
    splitGo [] [] ts = partition_pass_spec [] ts := by
  have h := splitGo_eq_partition_pass_spec_aux ts [] [] [] (by intro p; simp)
  simpa using h

/-- C1: `layer_grid_tiles` partitions every finite tile list into an ordered sequence
of sub-layers such that within each partition no two tiles share the same pixel
position, the concatenation of all partitions is a permutation (multiset equality) of
the input, each partition preserves the input's relative order (it is a subsequence of
the input), and the first partition holds a tile at every pixel position occurring in
the input.  Moreover the scanning pass of the source agrees exactly with the spec-side
description `partition_pass_spec`: the first tile seen at each distinct pixel position
stays in the current partition and every later collider is deferred to the overflow,
in original order; and the partition sequence is exactly the recursive iteration of
that pass, the kept tiles forming each partition and the deferred colliders feeding
the next. -/
theorem layer_grid_tiles_partition_correct (ts : List TileInstance) :
    (∀ part ∈ layer_grid_tiles ts, part.Pairwise (fun a b => a.px ≠ b.px)) ∧
    List.Perm (layer_grid_tiles ts).flatten ts ∧
    (∀ part ∈ layer_grid_tiles ts, part.Sublist ts) ∧
    (∃ first rest, layer_grid_tiles ts = first :: rest ∧
      ∀ t ∈ ts, ∃ u ∈ first, u.px = t.px) ∧
    splitGo [] [] ts = partition_pass_spec [] ts ∧
    layer_grid_tiles ts =
      (partition_pass_spec [] ts).1 ::
        (if (partition_pass_spec [] ts).2.isEmpty then []
         else layer_grid_tiles (partition_pass_spec [] ts).2) := by
  refine ⟨layer_grid_tiles_pairwise ts.length ts le_rfl,
    layer_grid_tiles_flatten_perm ts.length ts le_rfl,
    layer_grid_tiles_sublist ts.length ts le_rfl, ?_,
    splitGo_eq_partition_pass_spec ts, ?_⟩
  · obtain ⟨rest, hr⟩ := layer_grid_tiles_head ts
    exact ⟨_, rest, hr, fun t ht => splitGo_cover ts [] [] t (Or.inr ht)⟩
  · rw [← splitGo_eq_partition_pass_spec ts, layer_grid_tiles_eq]
    by_cases he : (splitGo [] [] ts).2.isEmpty
    · rw [if_pos he, if_pos he]
    · rw [if_neg he, if_neg he]

/-- Witness for C1 at the collision scenario of spec section 8: two tiles at pixel
(0,0) and one at (32,0). -/
theorem layer_grid_tiles_partition_correct_witness :
    (([⟨(0,0),(0,0),2,0⟩, ⟨(32,0),(0,0),1,0⟩] : List TileInstance).Pairwise
      (fun a b => a.px ≠ b.px)) ∧
    (([⟨(0,0),(0,0),5,0⟩] : List TileInstance).Sublist
      [⟨(0,0),(0,0),2,0⟩, ⟨(0,0),(0,0),5,0⟩, ⟨(32,0),(0,0),1,0⟩]) := by
  constructor
  · exact (layer_grid_tiles_partition_correct
      [⟨(0,0),(0,0),2,0⟩, ⟨(0,0),(0,0),5,0⟩, ⟨(32,0),(0,0),1,0⟩]).1
      [⟨(0,0),(0,0),2,0⟩, ⟨(32,0),(0,0),1,0⟩] (by decide)
  · exact (layer_grid_tiles_partition_correct
      [⟨(0,0),(0,0),2,0⟩, ⟨(0,0),(0,0),5,0⟩, ⟨(32,0),(0,0),1,0⟩]).2.2.1
      [⟨(0,0),(0,0),5,0⟩] (by decide)

/-- C9: the recursion of `layer_grid_tiles` on its overflow set terminates: whenever
the overflow is non-empty the kept partition is also non-empty, so the overflow passed
to the recursive call is strictly shorter than the input; consequently a non-empty
input yields at most input-length partitions, and any fuel exceeding the input length
makes the fuel-indexed recursion agree with `layer_grid_tiles` (the recursion reaches
an empty overflow within input-length steps). -/
theorem layer_grid_tiles_termination (ts : List TileInstance) :
    ((splitGo [] [] ts).2 ≠ [] →
      (splitGo [] [] ts).1 ≠ [] ∧ (splitGo [] [] ts).2.length < ts.length) ∧
    (ts ≠ [] → (layer_grid_tiles ts).length ≤ ts.length) ∧
    (∀ f, ts.length < f → layerGridTilesFuel f ts = layer_grid_tiles ts) := by
  refine ⟨?_, (layer_grid_tiles_length_le ts.length ts le_rfl).2,
    fun f hf => layer_grid_tiles_fuel_enough ts f hf⟩
  intro h
  have hts : ts ≠ [] := by
    intro e
    subst e
    simp [splitGo] at h
  exact ⟨splitGo_nil_fst_ne_nil ts [] hts, splitGo_snd_length_lt ts h⟩

/-- Witness for C9 at a two-tile collision list and a singleton list. -/
theorem layer_grid_tiles_termination_witness :
    ((splitGo [] [] [⟨(0,0),(0,0),2,0⟩, ⟨(0,0),(0,0),5,0⟩]).1 ≠ [] ∧
      (splitGo [] [] [(⟨(0,0),(0,0),2,0⟩ : TileInstance),
        ⟨(0,0),(0,0),5,0⟩]).2.length <
        ([⟨(0,0),(0,0),2,0⟩, ⟨(0,0),(0,0),5,0⟩] : List TileInstance).length) ∧
    (layer_grid_tiles [(⟨(0,0),(0,0),2,0⟩ : TileInstance)]).length ≤
      ([⟨(0,0),(0,0),2,0⟩] : List TileInstance).length ∧
    layerGridTilesFuel 5 [(⟨(0,0),(0,0),2,0⟩ : TileInstance)] =
      layer_grid_tiles [⟨(0,0),(0,0),2,0⟩] := by
  refine ⟨(layer_grid_tiles_termination
      [⟨(0,0),(0,0),2,0⟩, ⟨(0,0),(0,0),5,0⟩]).1 (by decide),
    (layer_grid_tiles_termination [⟨(0,0),(0,0),2,0⟩]).2.1 (by decide),
    (layer_grid_tiles_termination [⟨(0,0),(0,0),2,0⟩]).2.2 5 (by decide)⟩

/-- C8: the flip-code decode used by `tile_pos_to_tile_maker` maps code 0 to
(false, false), 1 to (true, false), 2 to (false, true) and 3 to (true, true),
exhaustively over the 4 codes. -/
theorem decode_flips_table :
    decode_flips 0 = (false, false) ∧ decode_flips 1 = (true, false) ∧
    decode_flips 2 = (false, true) ∧ decode_flips 3 = (true, true) := by
  decide

/-- C3: for a tile instance inside a layer of height `H` cells with positive grid size
`g`, the tile position computed when `tile_pos_to_tile_maker` builds its lookup is
column = floor(pixel_x / g) and row = H - floor(pixel_y / g) - 1; the conversion fails
when g = 0 (the division panics). -/
theorem tile_maker_pos_formula (H g : Int) (t : TileInstance) :
    (g = 0 → tile_maker_pos H g t = none) ∧
    (0 < g → 0 ≤ t.px.1 → 0 ≤ t.px.2 → 0 ≤ H → H < 4294967296 →
      t.px.1 / g < 4294967296 → t.px.2 / g < H →
      tile_maker_pos H g t =
        some ((t.px.1 / g).toNat, (H - t.px.2 / g - 1).toNat)) := by
  constructor
  · intro hg
    simp [tile_maker_pos, hg]
  · intro hg hx hy hH hH32 hcol hrow
    have hgne : g ≠ 0 := ne_of_gt hg
    have hdx : Int.tdiv t.px.1 g = t.px.1 / g := Int.tdiv_eq_ediv hx hg.le
    have hdy : Int.tdiv t.px.2 g = t.px.2 / g := Int.tdiv_eq_ediv hy hg.le
    have hcx : 0 ≤ t.px.1 / g := Int.ediv_nonneg hx hg.le
    have hcy : 0 ≤ t.px.2 / g := Int.ediv_nonneg hy hg.le
    simp only [tile_maker_pos, if_neg hgne, hdx, hdy, toU32, Option.some.injEq,
      Prod.mk.injEq]
    constructor
    · omega
    · omega

/-- Witness for C3 at grid size 0 (failure case) and at a 2-cell-high layer with grid
size 32 and a tile at pixel (32, 0). -/
theorem tile_maker_pos_formula_witness :
    tile_maker_pos 2 0 ⟨(0,0),(0,0),1,0⟩ = none ∧
    tile_maker_pos 2 32 ⟨(32,0),(0,0),4,0⟩ =
      some ((((32 : Int) / 32)).toNat, (((2 : Int) - 0 / 32 - 1)).toNat) := by
  constructor
  · exact (tile_maker_pos_formula 2 0 ⟨(0,0),(0,0),1,0⟩).1 rfl
  · exact (tile_maker_pos_formula 2 32 ⟨(32,0),(0,0),4,0⟩).2 (by decide) (by decide)
      (by decide) (by decide) (by decide) (by decide) (by decide)

/-- Characterization of the row-major decode: inside the grid, the decoded tile
position of index `i` equals (c, r) exactly when `i` is the row-major index
(h - 1 - r) * w + c. -/
theorem int_grid_pos_eq_iff (w h c r i : Nat) (hw : 0 < w) (hc : c < w) (hr : r < h)
    (hi : i < w * h) :
    ((i % w, h - i / w - 1) = ((c, r) : Nat × Nat)) ↔ i = (h - 1 - r) * w + c := by
  constructor
  · intro he
    have h1 : i % w = c := ((Prod.mk.injEq _ _ _ _).mp he).1
    have h2 : h - i / w - 1 = r := ((Prod.mk.injEq _ _ _ _).mp he).2
    have hdiv : i / w < h := by
      refine (Nat.div_lt_iff_lt_mul hw).mpr ?_
      rw [Nat.mul_comm]
      exact hi
    have hmod := Nat.div_add_mod i w
    have hd : i / w = h - 1 - r := by omega
    rw [← hmod, hd, h1, Nat.mul_comm]
  · intro he
    subst he
    have hmod : ((h - 1 - r) * w + c) % w = c := by
      rw [Nat.mul_comm, Nat.mul_add_mod]
      exact Nat.mod_eq_of_lt hc
    have hdiv : ((h - 1 - r) * w + c) / w = h - 1 - r := by
      rw [Nat.mul_comm, Nat.mul_add_div hw]
      simp [Nat.div_eq_of_lt hc]
    rw [hmod, hdiv]
    simp only [Prod.mk.injEq, true_and]
    omega

/-- In-bounds success and content of the `nonzero_map` entry list: when all decoded
indices are in bounds, the entries are exactly the decoded positions paired with the
non-zero-ness of the corresponding CSV value. -/
theorem nonzero_entries_some (w h : Nat) : ∀ (csv : List Int) (i : Nat),
    i + csv.length ≤ w * h →
    ∃ m, nonzero_entries w h i csv = some m ∧
      ∀ x, x ∈ m ↔ ∃ k, k < csv.length ∧
        x = (((i + k) % w, h - (i + k) / w - 1), decide (csv.getD k 0 ≠ 0)) := by
  intro csv
  induction csv with
  | nil =>
    intro i hi
    refine ⟨[], rfl, ?_⟩
    intro x
    simp
  | cons v rest ih =>
    intro i hi
    simp only [List.length_cons] at hi
    obtain ⟨m, hm, hmem⟩ := ih (i + 1) (by omega)
    have hdec : int_grid_index_to_tile_pos i w h = some (i % w, h - i / w - 1) := by
      unfold int_grid_index_to_tile_pos
      rw [if_pos (by omega)]
    refine ⟨((i % w, h - i / w - 1), decide (v ≠ 0)) :: m, ?_, ?_⟩
    · simp only [nonzero_entries, hdec, hm]
    · intro x
      simp only [List.mem_cons, hmem]
      constructor
      · rintro (rfl | ⟨k, hk, rfl⟩)
        · refine ⟨0, by simp, ?_⟩
          simp
        · refine ⟨k + 1, by simp [hk], ?_⟩
          have ha : i + (k + 1) = i + 1 + k := by omega
          simp [ha]
      · rintro ⟨k, hk, rfl⟩
        cases k with
        | zero =>
          left
          simp
        | succ k =>
          right
          refine ⟨k, by simp at hk; omega, ?_⟩
          have ha : i + (k + 1) = i + 1 + k := by omega
          simp [ha]

/-- The content of the non-zero lookup at an in-grid position: it finds exactly the
non-zero-ness of the CSV value at the corresponding row-major index. -/
theorem lookupLast_nonzero (w h c r : Nat) (csv : List Int) (hw : 0 < w)
    (hc : c < w) (hr : r < h) (hlen : csv.length = w * h) :
    ∃ m, nonzero_entries w h 0 csv = some m ∧
      lookupLast m (c, r) = some (decide (csv.getD ((h - 1 - r) * w + c) 0 ≠ 0)) := by
  obtain ⟨m, hm, hmem⟩ := nonzero_entries_some w h csv 0 (by omega)
  refine ⟨m, hm, ?_⟩
  have hk0 : (h - 1 - r) * w + c < w * h := by
    have h1 : h - 1 - r + 1 ≤ h := by omega
    have h2 : (h - 1 - r) * w + c < (h - 1 - r) * w + w := by omega
    have h3 : (h - 1 - r) * w + w = (h - 1 - r + 1) * w := by ring
    have h4 : (h - 1 - r + 1) * w ≤ h * w := Nat.mul_le_mul_right w h1
    have h5 : h * w = w * h := Nat.mul_comm h w
    omega
  have hkey : (((h - 1 - r) * w + c) % w, h - ((h - 1 - r) * w + c) / w - 1)
      = ((c, r) : Nat × Nat) :=
    (int_grid_pos_eq_iff w h c r ((h - 1 - r) * w + c) hw hc hr hk0).mpr rfl
  have hx0 : (((c, r) : Nat × Nat), decide (csv.getD ((h - 1 - r) * w + c) 0 ≠ 0)) ∈ m := by
    rw [hmem]
    refine ⟨(h - 1 - r) * w + c, by omega, ?_⟩
    rw [Nat.zero_add, hkey]
  have hsome : (m.reverse.find? (fun e => decide (e.1 = ((c, r) : Nat × Nat)))).isSome := by
    rw [List.find?_isSome]
    exact ⟨_, List.mem_reverse.mpr hx0, by simp⟩
  obtain ⟨y, hy⟩ := Option.isSome_iff_exists.mp hsome
  have hykey : y.1 = ((c, r) : Nat × Nat) := by
    have hyp := List.find?_some hy
    simpa using hyp
  have hymem : y ∈ m := List.mem_reverse.mp (List.mem_of_find?_eq_some hy)
  rw [hmem] at hymem
  obtain ⟨k, hk, hyeq⟩ := hymem
  have hkeq : k = (h - 1 - r) * w + c := by
    have : ((k % w, h - k / w - 1) : Nat × Nat) = (c, r) := by
      rw [hyeq] at hykey
      simpa using hykey
    exact (int_grid_pos_eq_iff w h c r k hw hc hr (by omega)).mp this
  unfold lookupLast
  rw [hy]
  rw [hyeq, hkeq]
  simp

/-- C4: over a CSV of length width*height, the no-tileset fallback maker
(`tile_pos_to_tile_bundle_if_int_grid_nonzero_maker` composed with
`tile_pos_to_invisible_tile`) succeeds, and returns a bundle at an in-grid position
(c, r) if and only if the CSV value at the corresponding row-major index
(h - 1 - r) * w + c is non-zero. -/
theorem int_grid_nonzero_gating (csv : List Int) (w h c r : Nat) (hw : 0 < w)
    (hlen : csv.length = w * h) (hc : c < w) (hr : r < h) :
    ∃ f, tile_pos_to_tile_bundle_if_int_grid_nonzero_maker tile_pos_to_invisible_tile
        csv w h = some f ∧
      ((f (c, r)).isSome = true ↔ csv.getD ((h - 1 - r) * w + c) 0 ≠ 0) := by
  obtain ⟨m, hm, hl⟩ := lookupLast_nonzero w h c r csv hw hc hr hlen
  refine ⟨fun tile_pos =>
      match lookupLast m tile_pos with
      | some true => (tile_pos_to_invisible_tile tile_pos).map (fun tile => { tile := tile })
      | _ => none, ?_, ?_⟩
  · simp only [tile_pos_to_tile_bundle_if_int_grid_nonzero_maker, hm]
    rfl
  · show (match lookupLast m ((c, r) : Nat × Nat) with
        | some true =>
          (tile_pos_to_invisible_tile (c, r)).map
            (fun tile => ({ tile := tile } : TileBundle))
        | _ => none).isSome = true ↔ csv.getD ((h - 1 - r) * w + c) 0 ≠ 0
    rw [hl]
    cases hdec : decide (csv.getD ((h - 1 - r) * w + c) 0 ≠ 0) with
    | false =>
      have h0 : csv.getD ((h - 1 - r) * w + c) 0 = 0 :=
        not_not.mp (of_decide_eq_false hdec)
      exact iff_of_false (by simp) (fun hh => hh h0)
    | true =>
      exact iff_of_true (by rfl) (of_decide_eq_true hdec)

/-- Witness for C4 at the int-grid scenario of spec section 8:
CSV [0,1,2,-1,0,3] with width 3 and height 2, at tile position (2, 0). -/
theorem int_grid_nonzero_gating_witness :
    ∃ f, tile_pos_to_tile_bundle_if_int_grid_nonzero_maker tile_pos_to_invisible_tile
        [0, 1, 2, -1, 0, 3] 3 2 = some f ∧
      ((f (2, 0)).isSome = true ↔
        ([0, 1, 2, -1, 0, 3] : List Int).getD ((2 - 1 - 0) * 3 + 2) 0 ≠ 0) :=
  int_grid_nonzero_gating [0, 1, 2, -1, 0, 3] 3 2 2 0 (by decide) (by decide)
    (by decide) (by decide)

/-! Lemmas about the spawn-level model. -/

theorem partition_emission_shape {E C : Type} (li : LayerInstance)
    (td : Option TilesetDefinition) (intReg : LdtkRegistry Int C) (d i : Nat)
    (part : List TileInstance) (e : SpawnEmission E C)
    (h : partition_emission li td intReg d i part = some e) :
    ∃ ms, e = SpawnEmission.subLayer d i part ms ∧
      (li.layer_instance_type = LayerType.IntGrid → i = 0 →
        int_grid_markers li intReg = some ms) ∧
      ((li.layer_instance_type ≠ LayerType.IntGrid ∨ i ≠ 0) → ms = []) := by
  unfold partition_emission at h
  by_cases hty : li.layer_instance_type = LayerType.IntGrid
  · rw [if_pos hty] at h
    have hcore : ∀ (h2 : (if i = 0 then
          (int_grid_markers li intReg).map (fun ms => SpawnEmission.subLayer d i part ms)
        else some (SpawnEmission.subLayer d i part ([] : List (IntCellMarker C)))) = some e),
        ∃ ms, e = SpawnEmission.subLayer d i part ms ∧
          (li.layer_instance_type = LayerType.IntGrid → i = 0 →
            int_grid_markers li intReg = some ms) ∧
          ((li.layer_instance_type ≠ LayerType.IntGrid ∨ i ≠ 0) → ms = []) := by
      intro h2
      by_cases hi : i = 0
      · rw [if_pos hi] at h2
        cases hms : int_grid_markers li intReg with
        | none => rw [hms] at h2; simp at h2
        | some ms =>
          rw [hms] at h2
          simp only [Option.map_some', Option.some.injEq] at h2
          refine ⟨ms, h2.symm, fun _ _ => rfl, ?_⟩
          intro hor
          rcases hor with hne | hne
          · exact absurd hty hne
          · exact absurd hi hne
      · rw [if_neg hi] at h2
        simp only [Option.some.injEq] at h2
        exact ⟨[], h2.symm, fun _ hi0 => absurd hi0 hi, fun _ => rfl⟩
    cases td with
    | some tdv =>
      cases hg : grid_tile_map_entries li.c_hei li.grid_size part with
      | none => rw [hg] at h; simp at h
      | some m => rw [hg] at h; exact hcore h
    | none =>
      cases hg : nonzero_entries (toU32 li.c_wid) (toU32 li.c_hei) 0 li.int_grid_csv with
      | none => rw [hg] at h; simp at h
      | some m => rw [hg] at h; exact hcore h
  · rw [if_neg hty] at h
    cases hg : grid_tile_map_entries li.c_hei li.grid_size part with
    | none => rw [hg] at h; simp at h
    | some m =>
      rw [hg] at h
      simp only [Option.map_some', Option.some.injEq] at h
      exact ⟨[], h.symm, fun hty0 => absurd hty0 hty, fun _ => rfl⟩

theorem emissions_for_partitions_spec {E C : Type} (li : LayerInstance)
    (td : Option TilesetDefinition) (intReg : LdtkRegistry Int C) (layerId : Nat) :
    ∀ (parts : List (List TileInstance)) (i : Nat) (es : List (SpawnEmission E C)),
    emissions_for_partitions li td intReg layerId i parts = some es →
    es.length = parts.length ∧
    depths_ok (layerId + i) es ∧
    num_sub_layers es = parts.length ∧
    (1 ≤ i → ∀ e ∈ es, ∃ d j tiles, e = SpawnEmission.subLayer d j tiles []) := by
  intro parts
  induction parts with
  | nil =>
    intro i es h
    simp only [emissions_for_partitions, Option.some.injEq] at h
    subst h
    exact ⟨rfl, trivial, rfl, fun _ e he => absurd he (List.not_mem_nil e)⟩
  | cons p prest ih =>
    intro i es h
    simp only [emissions_for_partitions] at h
    cases hpe : partition_emission (E := E) li td intReg (layerId + i) i p with
    | none => rw [hpe] at h; simp at h
    | some e =>
      cases hrec : emissions_for_partitions (E := E) li td intReg layerId (i + 1) prest with
      | none => rw [hpe, hrec] at h; simp at h
      | some es2 =>
        rw [hpe, hrec] at h
        simp only [Option.some.injEq] at h
        subst h
        obtain ⟨ms, he, _, hms_nil⟩ := partition_emission_shape li td intReg _ _ _ _ hpe
        obtain ⟨hlen, hdep, hnum, htail⟩ := ih (i + 1) es2 hrec
        subst he
        refine ⟨by simp [hlen], ⟨rfl, ?_⟩, by simp [num_sub_layers, hnum], ?_⟩
        · have : layerId + i + 1 = layerId + (i + 1) := by omega
          rw [this]
          exact hdep
        · intro hi e he
          rcases List.mem_cons.mp he with rfl | he
          · exact ⟨layerId + i, i, p, by rw [hms_nil (Or.inr (by omega))]⟩
          · exact htail (by omega) e he

theorem emissions_for_partitions_cons {E C : Type} (li : LayerInstance)
    (td : Option TilesetDefinition) (intReg : LdtkRegistry Int C) (layerId : Nat)
    (p0 : List TileInstance) (prest : List (List TileInstance))
    (es : List (SpawnEmission E C))
    (h : emissions_for_partitions li td intReg layerId 0 (p0 :: prest) = some es) :
    ∃ e0 es2, es = e0 :: es2 ∧
      partition_emission li td intReg layerId 0 p0 = some e0 ∧
      emissions_for_partitions li td intReg layerId 1 prest = some es2 := by
  simp only [emissions_for_partitions, Nat.add_zero] at h
  cases hpe : partition_emission (E := E) li td intReg layerId 0 p0 with
  | none => rw [hpe] at h; simp at h
  | some e =>
    cases hrec : emissions_for_partitions (E := E) li td intReg layerId 1 prest with
    | none => rw [hpe, hrec] at h; simp at h
    | some es2 =>
      rw [hpe, hrec] at h
      simp only [Option.some.injEq] at h
      exact ⟨e, es2, h.symm, rfl, rfl⟩

theorem int_grid_markers_go_spec {C : Type} (li : LayerInstance)
    (intReg : LdtkRegistry Int C) :
    ∀ (csv : List Int) (i : Nat) (ms : List (IntCellMarker C)),
    int_grid_markers_go li intReg i csv = some ms →
    ((ms.map (fun m => m.csv_index)).Pairwise (fun a b => a < b)) ∧
    (∀ m ∈ ms, i ≤ m.csv_index ∧ m.csv_index - i < csv.length ∧
      csv.getD (m.csv_index - i) 0 = m.value ∧ m.value ≠ 0 ∧
      int_grid_index_to_tile_pos m.csv_index (toU32 li.c_wid) (toU32 li.c_hei) =
        some m.tile_pos ∧
      m.translation = tile_pos_to_translation_centered m.tile_pos li.grid_size ∧
      m.behavior = ldtk_map_get_or_default li.identifier m.value intReg) ∧
    (∀ k, k < csv.length → csv.getD k 0 ≠ 0 → ∃ m ∈ ms, m.csv_index = i + k) := by
  intro csv
  induction csv with
  | nil =>
    intro i ms h
    simp only [int_grid_markers_go, Option.some.injEq] at h
    subst h
    refine ⟨List.Pairwise.nil, fun m hm => absurd hm (List.not_mem_nil m), ?_⟩
    intro k hk
    simp at hk
  | cons v rest ih =>
    intro i ms h
    simp only [int_grid_markers_go] at h
    by_cases hv : v = 0
    · rw [if_pos hv] at h
      obtain ⟨hpw, helem, hcompl⟩ := ih (i + 1) ms h
      refine ⟨hpw, ?_, ?_⟩
      · intro m hm
        obtain ⟨hge, hlt, hget, hne, hdec, htr, hbe⟩ := helem m hm
        have hsub : m.csv_index - i = (m.csv_index - (i + 1)) + 1 := by omega
        refine ⟨by omega, by simp; omega, ?_, hne, hdec, htr, hbe⟩
        rw [hsub, List.getD_cons_succ]
        exact hget
      · intro k hk hnz
        cases k with
        | zero =>
          rw [List.getD_cons_zero] at hnz
          exact absurd hv hnz
        | succ k =>
          rw [List.getD_cons_succ] at hnz
          obtain ⟨m, hm, hci⟩ := hcompl k (by simp at hk; omega) hnz
          exact ⟨m, hm, by omega⟩
    · rw [if_neg hv] at h
      cases hdec : int_grid_index_to_tile_pos i (toU32 li.c_wid) (toU32 li.c_hei) with
      | none => rw [hdec] at h; simp at h
      | some p =>
        cases hrec : int_grid_markers_go li intReg (i + 1) rest with
        | none => rw [hdec, hrec] at h; simp at h
        | some ms2 =>
          rw [hdec, hrec] at h
          simp only [Option.some.injEq] at h
          subst h
          obtain ⟨hpw, helem, hcompl⟩ := ih (i + 1) ms2 hrec
          refine ⟨?_, ?_, ?_⟩
          · rw [List.map_cons, List.pairwise_cons]
            refine ⟨?_, hpw⟩
            intro a ha
            simp only [List.mem_map] at ha
            obtain ⟨m, hm, rfl⟩ := ha
            have h1 := (helem m hm).1
            show i < m.csv_index
            omega
          · intro m hm
            rcases List.mem_cons.mp hm with rfl | hm
            · refine ⟨le_rfl, by simp, ?_, hv, hdec, rfl, rfl⟩
              simp
            · obtain ⟨hge, hlt, hget, hne, hd2, htr, hbe⟩ := helem m hm
              have hsub : m.csv_index - i = (m.csv_index - (i + 1)) + 1 := by omega
              refine ⟨by omega, by simp; omega, ?_, hne, hd2, htr, hbe⟩
              rw [hsub, List.getD_cons_succ]
              exact hget
          · intro k hk hnz
            cases k with
            | zero =>
              refine ⟨_, List.mem_cons_self _ _, ?_⟩
              simp
            | succ k =>
              rw [List.getD_cons_succ] at hnz
              obtain ⟨m, hm, hci⟩ := hcompl k (by simp at hk; omega) hnz
              exact ⟨m, List.mem_cons_of_mem _ hm, by omega⟩

theorem num_sub_layers_entities {E C : Type} (d : Nat) (f : EntityInstance → E) :
    ∀ l : List EntityInstance,
    num_sub_layers (l.map (fun e => SpawnEmission.entity (C := C) d (f e))) = 0 ∧
    depths_ok d (l.map (fun e => SpawnEmission.entity (C := C) d (f e))) := by
  intro l
  induction l with
  | nil => exact ⟨rfl, trivial⟩
  | cons e rest ih =>
    refine ⟨?_, rfl, ih.2⟩
    simp only [List.map_cons, num_sub_layers]
    exact ih.1

theorem depths_ok_append {E C : Type} :
    ∀ (es fs : List (SpawnEmission E C)) (d : Nat),
    depths_ok d es → depths_ok (d + num_sub_layers es) fs → depths_ok d (es ++ fs) := by
  intro es
  induction es with
  | nil =>
    intro fs d h1 h2
    simpa [num_sub_layers] using h2
  | cons e rest ih =>
    intro fs d h1 h2
    cases e with
    | subLayer dep pi tiles ms =>
      obtain ⟨hd, hrest⟩ := h1
      refine ⟨hd, ih fs (d + 1) hrest ?_⟩
      have harith : d + 1 + num_sub_layers rest =
          d + num_sub_layers (SpawnEmission.subLayer dep pi tiles ms :: rest) := by
        simp only [num_sub_layers]
        omega
      rw [harith]
      exact h2
    | entity z b =>
      obtain ⟨hd, hrest⟩ := h1
      refine ⟨hd, ih fs d hrest ?_⟩
      simpa [num_sub_layers] using h2

theorem process_layer_tile_spec {E C : Type} (tdm : Int → Option TilesetDefinition)
    (entReg : LdtkRegistry String E) (intReg : LdtkRegistry Int C)
    (li : LayerInstance) (layerId : Nat) (es : List (SpawnEmission E C)) (id2 : Nat)
    (hty : li.layer_instance_type ≠ LayerType.Entities)
    (h : process_layer tdm entReg intReg li layerId = some (es, id2)) :
    ∃ td_opt,
      emissions_for_partitions li td_opt intReg layerId 0
        (layer_grid_tiles (li.grid_tiles ++ li.auto_layer_tiles)) = some es ∧
      id2 = layerId + (layer_grid_tiles (li.grid_tiles ++ li.auto_layer_tiles)).length := by
  unfold process_layer at h
  have hred : (match resolve_tileset_binding tdm li.tileset_def_uid with
      | none => none
      | some tileset_definition =>
        (emissions_for_partitions li tileset_definition intReg layerId 0
          (layer_grid_tiles (li.grid_tiles ++ li.auto_layer_tiles))).map
          (fun es => (es, layerId +
            (layer_grid_tiles (li.grid_tiles ++ li.auto_layer_tiles)).length))) =
      some (es, id2) := by
    cases hty2 : li.layer_instance_type with
    | Entities => exact absurd hty2 hty
    | IntGrid => rw [hty2] at h; exact h
    | Tiles => rw [hty2] at h; exact h
    | AutoLayer => rw [hty2] at h; exact h
  clear h
  have hfin : ∀ (td_opt : Option TilesetDefinition),
      ((emissions_for_partitions li td_opt intReg layerId 0
        (layer_grid_tiles (li.grid_tiles ++ li.auto_layer_tiles))).map
        (fun es => (es, layerId +
          (layer_grid_tiles (li.grid_tiles ++ li.auto_layer_tiles)).length))) =
        some (es, id2) →
      ∃ td_opt2,
        emissions_for_partitions li td_opt2 intReg layerId 0
          (layer_grid_tiles (li.grid_tiles ++ li.auto_layer_tiles)) = some es ∧
        id2 = layerId + (layer_grid_tiles (li.grid_tiles ++ li.auto_layer_tiles)).length := by
    intro td_opt hmap
    cases hem : emissions_for_partitions (E := E) li td_opt intReg layerId 0
        (layer_grid_tiles (li.grid_tiles ++ li.auto_layer_tiles)) with
    | none => rw [hem] at hmap; simp at hmap
    | some es0 =>
      rw [hem] at hmap
      simp only [Option.map_some', Option.some.injEq, Prod.mk.injEq] at hmap
      exact ⟨td_opt, by rw [hem, hmap.1], hmap.2.symm⟩
  obtain ⟨rv, hrv⟩ : ∃ v, resolve_tileset_binding tdm li.tileset_def_uid = v := ⟨_, rfl⟩
  rw [hrv] at hred
  cases rv with
  | none => exact Option.noConfusion hred
  | some td_opt => exact hfin td_opt hred

theorem process_layer_depths {E C : Type} (tdm : Int → Option TilesetDefinition)
    (entReg : LdtkRegistry String E) (intReg : LdtkRegistry Int C)
    (li : LayerInstance) (layerId : Nat) (es : List (SpawnEmission E C)) (id2 : Nat)
    (h : process_layer tdm entReg intReg li layerId = some (es, id2)) :
    depths_ok layerId es ∧ id2 = layerId + num_sub_layers es := by
  by_cases hty : li.layer_instance_type = LayerType.Entities
  · unfold process_layer at h
    rw [hty] at h
    simp only [Option.some.injEq, Prod.mk.injEq] at h
    obtain ⟨h1, h2⟩ := h
    subst h1
    have := num_sub_layers_entities (C := C) layerId
      (fun e => ldtk_map_get_or_default li.identifier e.identifier entReg)
      li.entity_instances
    exact ⟨this.2, by rw [this.1]; omega⟩
  · obtain ⟨td_opt, hem, hid⟩ :=
      process_layer_tile_spec tdm entReg intReg li layerId es id2 hty h
    obtain ⟨hlen, hdep, hnum, _⟩ :=
      emissions_for_partitions_spec li td_opt intReg layerId _ 0 es hem
    refine ⟨by simpa using hdep, ?_⟩
    rw [hid, hnum]

theorem spawn_layers_depths {E C : Type} (tdm : Int → Option TilesetDefinition)
    (entReg : LdtkRegistry String E) (intReg : LdtkRegistry Int C) :
    ∀ (lis : List LayerInstance) (layerId : Nat) (es : List (SpawnEmission E C)),
    spawn_layers tdm entReg intReg lis layerId = some es → depths_ok layerId es := by
  intro lis
  induction lis with
  | nil =>
    intro d es h
    simp only [spawn_layers, Option.some.injEq] at h
    subst h
    trivial
  | cons li rest ih =>
    intro d es h
    simp only [spawn_layers] at h
    cases hpl : process_layer (E := E) tdm entReg intReg li d with
    | none => rw [hpl] at h; simp at h
    | some p =>
      obtain ⟨es1, id2⟩ := p
      rw [hpl] at h
      have h2 : (spawn_layers (E := E) tdm entReg intReg rest id2).map
          (fun rest_es => es1 ++ rest_es) = some es := h
      clear h
      cases hrec : spawn_layers (E := E) tdm entReg intReg rest id2 with
      | none => rw [hrec] at h2; simp at h2
      | some es2 =>
        rw [hrec] at h2
        simp only [Option.map_some', Option.some.injEq] at h2
        subst h2
        obtain ⟨h1, h2⟩ := process_layer_depths tdm entReg intReg li d es1 id2 hpl
        refine depths_ok_append es1 es2 d h1 ?_
        rw [← h2]
        exact ih id2 es2 hrec

/-- C5: `spawn_level` iterates the level's layer instances in reverse file order with
the depth counter starting at 0, and every successful placement plan obeys the counter
discipline: each emitted sub-layer carries the current counter value and advances it by
one (sub-layer depths are exactly 0, 1, 2, ... in emission order), and each emitted
entity placement carries as z the counter value of its originating layer. -/
theorem spawn_level_depth_invariant {E C : Type}
    (tdm : Int → Option TilesetDefinition) (entReg : LdtkRegistry String E)
    (intReg : LdtkRegistry Int C) (level : Level) (es : List (SpawnEmission E C)) :
    (∀ lis, level.layer_instances = some lis →
      spawn_level tdm entReg intReg level =
        spawn_layers tdm entReg intReg lis.reverse 0) ∧
    (spawn_level tdm entReg intReg level = some es → depths_ok 0 es) := by
  constructor
  · intro lis hl
    unfold spawn_level
    rw [hl]
  · intro h
    unfold spawn_level at h
    cases hl : level.layer_instances with
    | none =>
      rw [hl] at h
      simp only [Option.some.injEq] at h
      subst h
      trivial
    | some lis =>
      rw [hl] at h
      exact spawn_layers_depths tdm entReg intReg lis.reverse 0 es h

/-- Witness for C5 at a two-layer level (an Entities layer above a Tiles layer):
processing is in reverse order, the tile sub-layer takes depth 0 and the entity takes
z = 1. -/
theorem spawn_level_depth_invariant_witness :
    (spawn_level (fun _ => none) (⟨[], 0⟩ : LdtkRegistry String Nat)
        (⟨[], 0⟩ : LdtkRegistry Int Nat)
        ⟨some [⟨LayerType.Entities, "E", 2, 2, 16, none, 0, 0, [], [], [], [⟨"npc"⟩]⟩,
               ⟨LayerType.Tiles, "T", 2, 2, 16, none, 0, 0, [], [], [], []⟩], 32⟩ =
      spawn_layers (fun _ => none) ⟨[], 0⟩ ⟨[], 0⟩
        ([⟨LayerType.Entities, "E", 2, 2, 16, none, 0, 0, [], [], [], [⟨"npc"⟩]⟩,
          ⟨LayerType.Tiles, "T", 2, 2, 16, none, 0, 0, [], [], [], []⟩] :
          List LayerInstance).reverse 0) ∧
    depths_ok 0 ([SpawnEmission.subLayer 0 0 [] [], SpawnEmission.entity 1 0] :
      List (SpawnEmission Nat Nat)) := by
  constructor
  · exact (spawn_level_depth_invariant (fun _ => none) ⟨[], 0⟩ ⟨[], 0⟩
      ⟨some [⟨LayerType.Entities, "E", 2, 2, 16, none, 0, 0, [], [], [], [⟨"npc"⟩]⟩,
             ⟨LayerType.Tiles, "T", 2, 2, 16, none, 0, 0, [], [], [], []⟩], 32⟩ []).1
      [⟨LayerType.Entities, "E", 2, 2, 16, none, 0, 0, [], [], [], [⟨"npc"⟩]⟩,
       ⟨LayerType.Tiles, "T", 2, 2, 16, none, 0, 0, [], [], [], []⟩] rfl
  · exact (spawn_level_depth_invariant (fun _ => none) ⟨[], 0⟩ ⟨[], 0⟩
      ⟨some [⟨LayerType.Entities, "E", 2, 2, 16, none, 0, 0, [], [], [], [⟨"npc"⟩]⟩,
             ⟨LayerType.Tiles, "T", 2, 2, 16, none, 0, 0, [], [], [], []⟩], 32⟩
      [SpawnEmission.subLayer 0 0 [] [], SpawnEmission.entity 1 0]).2 (by decide)

/-- C7: behavior resolution never fails: with no registered behavior for the exact
(layer identifier, key) pair, `ldtk_map_get_or_default` returns the process-wide
default behavior; and an Entities layer always spawns successfully, placing every
entity instance with its resolved behavior. -/
theorem behavior_resolution_default (E C : Type) :
    (∀ (K : Type) [DecidableEq K] (B : Type) (lid : String) (key : K)
       (reg : LdtkRegistry K B),
      reg.entries.find? (fun e => decide (e.1 = (lid, key))) = none →
      ldtk_map_get_or_default lid key reg = reg.dflt) ∧
    (∀ (tdm : Int → Option TilesetDefinition) (entReg : LdtkRegistry String E)
       (intReg : LdtkRegistry Int C) (li : LayerInstance) (layerId : Nat),
      li.layer_instance_type = LayerType.Entities →
      process_layer tdm entReg intReg li layerId =
        some (li.entity_instances.map (fun e => SpawnEmission.entity layerId
          (ldtk_map_get_or_default li.identifier e.identifier entReg)), layerId)) := by
  constructor
  · intro K instK B lid key reg hf
    unfold ldtk_map_get_or_default
    rw [hf]
  · intro tdm entReg intReg li layerId hty
    unfold process_layer
    rw [hty]

/-- Witness for C7 at an unregistered int-grid key and a concrete Entities layer. -/
theorem behavior_resolution_default_witness :
    ldtk_map_get_or_default "Ground" (3 : Int) (⟨[], 7⟩ : LdtkRegistry Int Nat) = 7 ∧
    process_layer (fun _ => none) (⟨[], 9⟩ : LdtkRegistry String Nat)
        (⟨[], 0⟩ : LdtkRegistry Int Nat)
        ⟨LayerType.Entities, "E", 2, 2, 16, none, 0, 0, [], [], [], [⟨"npc"⟩]⟩ 4 =
      some (([⟨"npc"⟩] : List EntityInstance).map (fun e => SpawnEmission.entity 4
        (ldtk_map_get_or_default "E" e.identifier
          (⟨[], 9⟩ : LdtkRegistry String Nat))), 4) := by
  constructor
  · exact (behavior_resolution_default Nat Nat).1 Int Nat "Ground" 3 ⟨[], 7⟩ rfl
  · exact (behavior_resolution_default Nat Nat).2 (fun _ => none) ⟨[], 9⟩ ⟨[], 0⟩
      ⟨LayerType.Entities, "E", 2, 2, 16, none, 0, 0, [], [], [], [⟨"npc"⟩]⟩ 4 rfl

/-- C2: for an IntGrid layer, a successful spawn emits the semantic int-grid markers
exactly once, attached only to the first partition's sub-layer: one marker per non-zero
CSV cell, in strictly increasing CSV array-index order, each carrying the raw cell
value, the decoded tile position, the cell-centered translation and the behavior
resolved from (layer identifier, cell value); every later (overflow) sub-layer carries
no markers, regardless of how many overflow partitions the layer's combined tile list
produces. -/
theorem int_grid_markers_first_partition_only {E C : Type}
    (tdm : Int → Option TilesetDefinition) (entReg : LdtkRegistry String E)
    (intReg : LdtkRegistry Int C) (li : LayerInstance) (layerId : Nat)
    (es : List (SpawnEmission E C)) (id2 : Nat)
    (hty : li.layer_instance_type = LayerType.IntGrid)
    (h : process_layer tdm entReg intReg li layerId = some (es, id2)) :
    ∃ ms p0 rest,
      int_grid_markers li intReg = some ms ∧
      es = SpawnEmission.subLayer layerId 0 p0 ms :: rest ∧
      (∀ e ∈ rest, ∃ d j tiles, e = SpawnEmission.subLayer d j tiles []) ∧
      ((ms.map (fun m => m.csv_index)).Pairwise (fun a b => a < b)) ∧
      (∀ m ∈ ms, m.csv_index < li.int_grid_csv.length ∧
        li.int_grid_csv.getD m.csv_index 0 = m.value ∧ m.value ≠ 0 ∧
        int_grid_index_to_tile_pos m.csv_index (toU32 li.c_wid) (toU32 li.c_hei) =
          some m.tile_pos ∧
        m.translation = tile_pos_to_translation_centered m.tile_pos li.grid_size ∧
        m.behavior = ldtk_map_get_or_default li.identifier m.value intReg) ∧
      (∀ k, k < li.int_grid_csv.length → li.int_grid_csv.getD k 0 ≠ 0 →
        ∃ m ∈ ms, m.csv_index = k) := by
  have hty2 : li.layer_instance_type ≠ LayerType.Entities := by
    rw [hty]
    intro hh
    cases hh
  obtain ⟨td_opt, hem, hid⟩ :=
    process_layer_tile_spec tdm entReg intReg li layerId es id2 hty2 h
  obtain ⟨prest, hparts⟩ := layer_grid_tiles_head (li.grid_tiles ++ li.auto_layer_tiles)
  rw [hparts] at hem
  obtain ⟨e0, es2, hes, hpe, hrec⟩ :=
    emissions_for_partitions_cons li td_opt intReg layerId _ prest es hem
  obtain ⟨ms, he0, hmks, _⟩ := partition_emission_shape li td_opt intReg layerId 0 _ e0 hpe
  have hms : int_grid_markers li intReg = some ms := hmks hty rfl
  obtain ⟨_, _, _, htail⟩ :=
    emissions_for_partitions_spec li td_opt intReg layerId prest 1 es2 hrec
  have hms_go : int_grid_markers_go li intReg 0 li.int_grid_csv = some ms := hms
  obtain ⟨hpw, helem, hcompl⟩ :=
    int_grid_markers_go_spec li intReg li.int_grid_csv 0 ms hms_go
  refine ⟨ms, _, es2, hms, by rw [hes, he0], htail le_rfl, hpw, ?_, ?_⟩
  · intro m hm
    obtain ⟨_, hlt, hget, hne, hdec, htr, hbe⟩ := helem m hm
    rw [Nat.sub_zero] at hlt hget
    exact ⟨hlt, hget, hne, hdec, htr, hbe⟩
  · intro k hk hnz
    obtain ⟨m, hm, hci⟩ := hcompl k hk hnz
    exact ⟨m, hm, by omega⟩

/-- Witness for C2 at an IntGrid layer of width 1, height 2, CSV [0, 5], no tileset and
no tiles: one marker for cell index 1, attached to the single sub-layer. -/
theorem int_grid_markers_first_partition_only_witness :
    ∃ ms p0 rest,
      int_grid_markers (⟨LayerType.IntGrid, "G", 1, 2, 16, none, 0, 0, [], [], [0, 5],
          []⟩ : LayerInstance) (⟨[], 0⟩ : LdtkRegistry Int Nat) = some ms ∧
      ([SpawnEmission.subLayer 0 0 [] [⟨1, 5, (0, 0), (8, 8), 0⟩]] :
          List (SpawnEmission Nat Nat)) =
        SpawnEmission.subLayer 0 0 p0 ms :: rest ∧
      (∀ e ∈ rest, ∃ d j tiles, e = SpawnEmission.subLayer d j tiles []) ∧
      ((ms.map (fun m => m.csv_index)).Pairwise (fun a b => a < b)) ∧
      (∀ m ∈ ms, m.csv_index < ([0, 5] : List Int).length ∧
        ([0, 5] : List Int).getD m.csv_index 0 = m.value ∧ m.value ≠ 0 ∧
        int_grid_index_to_tile_pos m.csv_index (toU32 1) (toU32 2) = some m.tile_pos ∧
        m.translation = tile_pos_to_translation_centered m.tile_pos 16 ∧
        m.behavior = ldtk_map_get_or_default "G" m.value (⟨[], 0⟩ : LdtkRegistry Int Nat)) ∧
      (∀ k, k < ([0, 5] : List Int).length → ([0, 5] : List Int).getD k 0 ≠ 0 →
        ∃ m ∈ ms, m.csv_index = k) :=
  int_grid_markers_first_partition_only (fun _ => none) ⟨[], 0⟩ ⟨[], 0⟩
    ⟨LayerType.IntGrid, "G", 1, 2, 16, none, 0, 0, [], [], [0, 5], []⟩ 0
    [SpawnEmission.subLayer 0 0 [] [⟨1, 5, (0, 0), (8, 8), 0⟩]] 1 rfl (by decide)

/-- C10: for the empty tile list, `layer_grid_tiles` returns exactly one partition (the
empty partition) rather than zero partitions; consequently a Tiles/AutoTiles/IntGrid
layer whose combined tile list is empty still emits exactly one sub-layer placement and
consumes exactly one depth-counter index. -/
theorem layer_grid_tiles_empty_one_sublayer (E C : Type) :
    layer_grid_tiles [] = [[]] ∧
    (∀ (tdm : Int → Option TilesetDefinition) (entReg : LdtkRegistry String E)
       (intReg : LdtkRegistry Int C) (li : LayerInstance) (layerId : Nat)
       (es : List (SpawnEmission E C)) (id2 : Nat),
      li.layer_instance_type ≠ LayerType.Entities →
      li.grid_tiles = [] → li.auto_layer_tiles = [] →
      process_layer tdm entReg intReg li layerId = some (es, id2) →
      (∃ ms, es = [SpawnEmission.subLayer layerId 0 [] ms]) ∧ id2 = layerId + 1) := by
  refine ⟨rfl, ?_⟩
  intro tdm entReg intReg li layerId es id2 hty hgt hat h
  obtain ⟨td_opt, hem, hid⟩ :=
    process_layer_tile_spec tdm entReg intReg li layerId es id2 hty h
  rw [hgt, hat] at hem hid
  have h00 : layer_grid_tiles ([] ++ [] : List TileInstance) = [[]] := rfl
  rw [h00] at hem hid
  obtain ⟨e0, es2, hes, hpe, hrec⟩ :=
    emissions_for_partitions_cons li td_opt intReg layerId [] [] es hem
  have hes2 : es2 = [] := by
    simp only [emissions_for_partitions, Option.some.injEq] at hrec
    exact hrec.symm
  obtain ⟨ms, he0, _, _⟩ := partition_emission_shape li td_opt intReg layerId 0 [] e0 hpe
  refine ⟨⟨ms, ?_⟩, ?_⟩
  · rw [hes, he0, hes2]
  · rw [hid]
    rfl

/-- Witness for C10 at a Tiles layer with no tiles: one sub-layer is emitted and the
counter advances from 0 to 1. -/
theorem layer_grid_tiles_empty_one_sublayer_witness :
    layer_grid_tiles [] = [[]] ∧
    ((∃ ms, ([SpawnEmission.subLayer 0 0 [] []] : List (SpawnEmission Nat Nat)) =
        [SpawnEmission.subLayer 0 0 [] ms]) ∧ 1 = 0 + 1) :=
  ⟨(layer_grid_tiles_empty_one_sublayer Nat Nat).1,
   (layer_grid_tiles_empty_one_sublayer Nat Nat).2 (fun _ => none) ⟨[], 0⟩ ⟨[], 0⟩
     ⟨LayerType.Tiles, "T", 2, 2, 16, none, 0, 0, [], [], [], []⟩ 0
     [SpawnEmission.subLayer 0 0 [] []] 1 (by decide) rfl rfl (by decide)⟩

/-! Failure-propagation lemmas for the error-handling claim. -/

theorem nonzero_entries_oob_none (w h : Nat) : ∀ (csv : List Int) (i k : Nat),
    k < csv.length → w * h ≤ i + k → nonzero_entries w h i csv = none := by
  intro csv
  induction csv with
  | nil =>
    intro i k hk _
    simp at hk
  | cons v rest ih =>
    intro i k hk hge
    simp only [nonzero_entries]
    by_cases hii : i < w * h
    · have hk1 : 1 ≤ k := by omega
      have hrec := ih (i + 1) (k - 1) (by simp at hk; omega) (by omega)
      rw [hrec]
      cases hdec : int_grid_index_to_tile_pos i w h <;> rfl
    · have hdec : int_grid_index_to_tile_pos i w h = none := by
        unfold int_grid_index_to_tile_pos
        rw [if_neg hii]
      rw [hdec]

theorem int_grid_markers_go_oob_none {C : Type} (li : LayerInstance)
    (intReg : LdtkRegistry Int C) : ∀ (csv : List Int) (i k : Nat),
    k < csv.length → csv.getD k 0 ≠ 0 → toU32 li.c_wid * toU32 li.c_hei ≤ i + k →
    int_grid_markers_go li intReg i csv = none := by
  intro csv
  induction csv with
  | nil =>
    intro i k hk _ _
    simp at hk
  | cons v rest ih =>
    intro i k hk hnz hge
    simp only [int_grid_markers_go]
    cases k with
    | zero =>
      rw [List.getD_cons_zero] at hnz
      rw [if_neg hnz]
      have hdec : int_grid_index_to_tile_pos i (toU32 li.c_wid) (toU32 li.c_hei) =
          none := by
        unfold int_grid_index_to_tile_pos
        rw [if_neg (by omega)]
      rw [hdec]
    | succ k =>
      rw [List.getD_cons_succ] at hnz
      have hrec := ih (i + 1) k (by simp at hk; omega) hnz (by omega)
      by_cases hv : v = 0
      · rw [if_pos hv]
        exact hrec
      · rw [if_neg hv, hrec]
        cases hdec : int_grid_index_to_tile_pos i (toU32 li.c_wid) (toU32 li.c_hei) <;>
          rfl

theorem partition_emission_head_none_unbound {E C : Type} (li : LayerInstance)
    (intReg : LdtkRegistry Int C) (d : Nat) (p0 : List TileInstance)
    (hty : li.layer_instance_type = LayerType.IntGrid)
    (hnz : nonzero_entries (toU32 li.c_wid) (toU32 li.c_hei) 0 li.int_grid_csv = none) :
    partition_emission (E := E) li none intReg d 0 p0 = none := by
  unfold partition_emission
  rw [if_pos hty, hnz]

theorem partition_emission_head_none_bound {E C : Type} (li : LayerInstance)
    (td : TilesetDefinition) (intReg : LdtkRegistry Int C) (d : Nat)
    (p0 : List TileInstance)
    (hty : li.layer_instance_type = LayerType.IntGrid)
    (hms : int_grid_markers li intReg = none) :
    partition_emission (E := E) li (some td) intReg d 0 p0 = none := by
  unfold partition_emission
  rw [if_pos hty]
  cases hg : grid_tile_map_entries li.c_hei li.grid_size p0 with
  | none => rfl
  | some m =>
    show (if 0 = 0 then
        (int_grid_markers li intReg).map
          (fun ms => SpawnEmission.subLayer (E := E) d 0 p0 ms)
      else some (SpawnEmission.subLayer d 0 p0 [])) = none
    rw [if_pos rfl, hms]
    rfl

theorem emissions_for_partitions_head_none {E C : Type} (li : LayerInstance)
    (td_opt : Option TilesetDefinition) (intReg : LdtkRegistry Int C) (layerId : Nat)
    (p0 : List TileInstance) (prest : List (List TileInstance))
    (h : partition_emission (E := E) (C := C) li td_opt intReg (layerId + 0) 0 p0 =
      none) :
    emissions_for_partitions (E := E) li td_opt intReg layerId 0 (p0 :: prest) =
      none := by
  simp only [emissions_for_partitions]
  rw [h]

theorem process_layer_fail {E C : Type} (tdm : Int → Option TilesetDefinition)
    (entReg : LdtkRegistry String E) (intReg : LdtkRegistry Int C)
    (li : LayerInstance) (d : Nat)
    (hty : li.layer_instance_type ≠ LayerType.Entities) :
    (∀ u, li.tileset_def_uid = some u → tdm u = none →
      process_layer (E := E) (C := C) tdm entReg intReg li d = none) ∧
    (li.layer_instance_type = LayerType.IntGrid → li.tileset_def_uid = none →
      nonzero_entries (toU32 li.c_wid) (toU32 li.c_hei) 0 li.int_grid_csv = none →
      process_layer tdm entReg intReg li d = none) ∧
    (li.layer_instance_type = LayerType.IntGrid →
      int_grid_markers li intReg = none →
      nonzero_entries (toU32 li.c_wid) (toU32 li.c_hei) 0 li.int_grid_csv = none →
      process_layer tdm entReg intReg li d = none) := by
  have hshape : ∀ (res : Option (List (SpawnEmission E C) × Nat)),
      (match resolve_tileset_binding tdm li.tileset_def_uid with
        | none => none
        | some tileset_definition =>
          (emissions_for_partitions li tileset_definition intReg d 0
            (layer_grid_tiles (li.grid_tiles ++ li.auto_layer_tiles))).map
            (fun es => (es, d +
              (layer_grid_tiles (li.grid_tiles ++ li.auto_layer_tiles)).length))) = res →
      process_layer tdm entReg intReg li d = res := by
    intro res hr
    unfold process_layer
    cases hty2 : li.layer_instance_type with
    | Entities => exact absurd hty2 hty
    | IntGrid => exact hr
    | Tiles => exact hr
    | AutoLayer => exact hr
  obtain ⟨prest, hparts⟩ := layer_grid_tiles_head (li.grid_tiles ++ li.auto_layer_tiles)
  have hmap_none : ∀ (td_opt : Option TilesetDefinition),
      emissions_for_partitions (E := E) li td_opt intReg d 0
        ((splitGo [] [] (li.grid_tiles ++ li.auto_layer_tiles)).1 :: prest) = none →
      (match some td_opt with
        | none => (none : Option (List (SpawnEmission E C) × Nat))
        | some tileset_definition =>
          (emissions_for_partitions li tileset_definition intReg d 0
            ((splitGo [] [] (li.grid_tiles ++ li.auto_layer_tiles)).1 :: prest)).map
            (fun es => (es, d +
              ((splitGo [] [] (li.grid_tiles ++ li.auto_layer_tiles)).1 ::
                prest).length))) = none := by
    intro td_opt he
    show (emissions_for_partitions (E := E) li td_opt intReg d 0
        ((splitGo [] [] (li.grid_tiles ++ li.auto_layer_tiles)).1 :: prest)).map
        (fun es => (es, d +
          ((splitGo [] [] (li.grid_tiles ++ li.auto_layer_tiles)).1 ::
            prest).length)) = none
    rw [he]
    rfl
  refine ⟨?_, ?_, ?_⟩
  · intro u hu hmap
    refine hshape none ?_
    have hrb : resolve_tileset_binding tdm li.tileset_def_uid = none := by
      rw [hu]
      simp only [resolve_tileset_binding, hmap]
    rw [hrb]
  · intro htyI hu hnz
    refine hshape none ?_
    have hrb : resolve_tileset_binding tdm li.tileset_def_uid = some none := by
      rw [hu]
      rfl
    rw [hrb, hparts]
    exact hmap_none none (emissions_for_partitions_head_none li none intReg d _ prest
      (partition_emission_head_none_unbound li intReg (d + 0) _ htyI hnz))
  · intro htyI hms hnz
    refine hshape none ?_
    obtain ⟨rv, hrv⟩ : ∃ v, resolve_tileset_binding tdm li.tileset_def_uid = v :=
      ⟨_, rfl⟩
    rw [hrv]
    cases rv with
    | none => rfl
    | some td_opt =>
      rw [hparts]
      refine hmap_none td_opt ?_
      cases td_opt with
      | none =>
        exact emissions_for_partitions_head_none li none intReg d _ prest
          (partition_emission_head_none_unbound li intReg (d + 0) _ htyI hnz)
      | some td =>
        exact emissions_for_partitions_head_none li (some td) intReg d _ prest
          (partition_emission_head_none_bound li td intReg (d + 0) _ htyI hms)

theorem spawn_layers_fail {E C : Type} (tdm : Int → Option TilesetDefinition)
    (entReg : LdtkRegistry String E) (intReg : LdtkRegistry Int C) :
    ∀ (lis : List LayerInstance) (li : LayerInstance) (layerId : Nat), li ∈ lis →
    (∀ d, process_layer (E := E) (C := C) tdm entReg intReg li d = none) →
    spawn_layers tdm entReg intReg lis layerId = none := by
  intro lis
  induction lis with
  | nil =>
    intro li d hmem _
    simp at hmem
  | cons head rest ih =>
    intro li d hmem hnone
    simp only [spawn_layers]
    rcases List.mem_cons.mp hmem with rfl | hmem
    · rw [hnone d]
    · cases hpl : process_layer (E := E) tdm entReg intReg head d with
      | none => rfl
      | some p =>
        obtain ⟨es1, id2⟩ := p
        show (spawn_layers (E := E) tdm entReg intReg rest id2).map
          (fun rest_es => es1 ++ rest_es) = none
        rw [ih li id2 hmem hnone]
        rfl

theorem spawn_level_fail_of_layer {E C : Type} (tdm : Int → Option TilesetDefinition)
    (entReg : LdtkRegistry String E) (intReg : LdtkRegistry Int C) (level : Level)
    (lis : List LayerInstance) (li : LayerInstance)
    (hlis : level.layer_instances = some lis) (hmem : li ∈ lis)
    (hnone : ∀ d, process_layer (E := E) (C := C) tdm entReg intReg li d = none) :
    spawn_level tdm entReg intReg level = none := by
  unfold spawn_level
  rw [hlis]
  exact spawn_layers_fail tdm entReg intReg lis.reverse li 0
    (List.mem_reverse.mpr hmem) hnone

/-- C6 counterexample: an IntGrid layer over a 1-by-1 grid with a bound and present
tileset and CSV [1, 0] of length 2: index 1 is at width*height, violating the data
contract, yet the spawn pass completes successfully because the zero value at the
out-of-bounds index is filtered out before any decode is attempted. -/
theorem spawn_no_abort_on_padded_csv :
    (spawn_level (fun u => if u = 1 then some ⟨1, 16, 64, 64, 0⟩ else none)
      (⟨[], 0⟩ : LdtkRegistry String Nat) (⟨[], 0⟩ : LdtkRegistry Int Nat)
      ⟨some [⟨LayerType.IntGrid, "L", 1, 1, 16, some 1, 0, 0, [], [], [1, 0], []⟩],
        16⟩).isSome = true := by
  decide

/-- C6 (amended): the spawn pass for a level aborts, producing no placement plan at
all, whenever a fault is actually encountered: a non-Entities layer referencing a
tileset uid absent from the definition map always aborts; an IntGrid layer without a
bound tileset aborts whenever its CSV is longer than width*height (every index is
decoded); an IntGrid layer aborts whenever a non-zero CSV value sits at an index at or
beyond width*height.  A zero value at an out-of-bounds index of a tileset-bound IntGrid
layer is filtered out before the decode and does not abort. -/
theorem spawn_level_fail_fast {E C : Type} (tdm : Int → Option TilesetDefinition)
    (entReg : LdtkRegistry String E) (intReg : LdtkRegistry Int C) (level : Level)
    (lis : List LayerInstance) (li : LayerInstance)
    (hlis : level.layer_instances = some lis) (hmem : li ∈ lis) :
    (∀ u, li.layer_instance_type ≠ LayerType.Entities → li.tileset_def_uid = some u →
      tdm u = none → spawn_level tdm entReg intReg level = none) ∧
    (li.layer_instance_type = LayerType.IntGrid → li.tileset_def_uid = none →
      toU32 li.c_wid * toU32 li.c_hei < li.int_grid_csv.length →
      spawn_level tdm entReg intReg level = none) ∧
    (li.layer_instance_type = LayerType.IntGrid →
      (∃ k, k < li.int_grid_csv.length ∧ li.int_grid_csv.getD k 0 ≠ 0 ∧
        toU32 li.c_wid * toU32 li.c_hei ≤ k) →
      spawn_level tdm entReg intReg level = none) := by
  refine ⟨?_, ?_, ?_⟩
  · intro u hty hu hmap
    refine spawn_level_fail_of_layer tdm entReg intReg level lis li hlis hmem ?_
    intro d
    exact (process_layer_fail tdm entReg intReg li d hty).1 u hu hmap
  · intro htyI hu hlen
    have hty : li.layer_instance_type ≠ LayerType.Entities := by
      rw [htyI]
      intro hh
      cases hh
    refine spawn_level_fail_of_layer tdm entReg intReg level lis li hlis hmem ?_
    intro d
    refine (process_layer_fail tdm entReg intReg li d hty).2.1 htyI hu ?_
    exact nonzero_entries_oob_none (toU32 li.c_wid) (toU32 li.c_hei) li.int_grid_csv 0
      (toU32 li.c_wid * toU32 li.c_hei) hlen (by omega)
  · intro htyI hbad
    obtain ⟨k, hk, hnzv, hge⟩ := hbad
    have hty : li.layer_instance_type ≠ LayerType.Entities := by
      rw [htyI]
      intro hh
      cases hh
    refine spawn_level_fail_of_layer tdm entReg intReg level lis li hlis hmem ?_
    intro d
    refine (process_layer_fail tdm entReg intReg li d hty).2.2 htyI ?_ ?_
    · exact int_grid_markers_go_oob_none li intReg li.int_grid_csv 0 k hk hnzv
        (by omega)
    · exact nonzero_entries_oob_none (toU32 li.c_wid) (toU32 li.c_hei) li.int_grid_csv
        0 k hk (by omega)

/-- Witness for the amended C6 at three concrete faulty levels: a dangling tileset
uid, an unbound IntGrid layer with an over-long CSV, and a bound IntGrid layer with a
non-zero out-of-bounds cell. -/
theorem spawn_level_fail_fast_witness :
    spawn_level (fun _ => none) (⟨[], 0⟩ : LdtkRegistry String Nat)
      (⟨[], 0⟩ : LdtkRegistry Int Nat)
      ⟨some [⟨LayerType.Tiles, "T", 1, 1, 16, some 5, 0, 0, [], [], [], []⟩], 16⟩ =
      none ∧
    spawn_level (fun _ => none) (⟨[], 0⟩ : LdtkRegistry String Nat)
      (⟨[], 0⟩ : LdtkRegistry Int Nat)
      ⟨some [⟨LayerType.IntGrid, "G", 1, 1, 16, none, 0, 0, [], [], [0, 0], []⟩], 16⟩ =
      none ∧
    spawn_level (fun u => if u = 1 then some ⟨1, 16, 64, 64, 0⟩ else none)
      (⟨[], 0⟩ : LdtkRegistry String Nat) (⟨[], 0⟩ : LdtkRegistry Int Nat)
      ⟨some [⟨LayerType.IntGrid, "H", 1, 1, 16, some 1, 0, 0, [], [], [1, 5], []⟩],
        16⟩ = none := by
  refine ⟨?_, ?_, ?_⟩
  · exact (spawn_level_fail_fast (fun _ => none) ⟨[], 0⟩ ⟨[], 0⟩
      ⟨some [⟨LayerType.Tiles, "T", 1, 1, 16, some 5, 0, 0, [], [], [], []⟩], 16⟩
      [⟨LayerType.Tiles, "T", 1, 1, 16, some 5, 0, 0, [], [], [], []⟩]
      ⟨LayerType.Tiles, "T", 1, 1, 16, some 5, 0, 0, [], [], [], []⟩
      rfl (List.mem_singleton.mpr rfl)).1 5 (by decide) rfl rfl
  · exact (spawn_level_fail_fast (fun _ => none) ⟨[], 0⟩ ⟨[], 0⟩
      ⟨some [⟨LayerType.IntGrid, "G", 1, 1, 16, none, 0, 0, [], [], [0, 0], []⟩], 16⟩
      [⟨LayerType.IntGrid, "G", 1, 1, 16, none, 0, 0, [], [], [0, 0], []⟩]
      ⟨LayerType.IntGrid, "G", 1, 1, 16, none, 0, 0, [], [], [0, 0], []⟩
      rfl (List.mem_singleton.mpr rfl)).2.1 rfl rfl (by decide)
  · exact (spawn_level_fail_fast (fun u => if u = 1 then some ⟨1, 16, 64, 64, 0⟩
        else none) ⟨[], 0⟩ ⟨[], 0⟩
      ⟨some [⟨LayerType.IntGrid, "H", 1, 1, 16, some 1, 0, 0, [], [], [1, 5], []⟩], 16⟩
      [⟨LayerType.IntGrid, "H", 1, 1, 16, some 1, 0, 0, [], [], [1, 5], []⟩]
      ⟨LayerType.IntGrid, "H", 1, 1, 16, some 1, 0, 0, [], [], [1, 5], []⟩
      rfl (List.mem_singleton.mpr rfl)).2.2 rfl ⟨1, by decide, by decide, by decide⟩

end BevyEcsLdtk
